import Mathlib

/-!
Verification of the Amazon-EcoPack packing/metrics core (src/App.jsx).

The JavaScript engine is shallowly embedded here: JS numbers are modelled as
exact rationals, JS arrays as lists, and the in-place mutations of the packing
loop as functional updates (the code only ever mutates freshly created box
records, so the functional rendering follows the source line by line).
Division by zero in ℚ yields 0 where JS would yield Infinity; the claims
about fill percentages therefore carry the catalog positivity assumptions
that the spec's data model imposes (positive container volume).
-/

/-- An item record: three dimensions (cm), weight (kg), display name. -/
structure Item where
  name : String
  length : ℚ
  width : ℚ
  height : ℚ
  weight : ℚ
deriving Repr, DecidableEq, Inhabited

/-- A container type from the catalog (AMAZON_BOX_SIZES entry shape). -/
structure BoxType where
  name : String
  length : ℚ
  width : ℚ
  height : ℚ
  volume : ℚ
  maxWeight : ℚ
  baseCO2 : ℚ
  perKgCO2 : ℚ
deriving Repr, DecidableEq, Inhabited

/-- The fixed catalog of App.jsx lines 6-11.  The decimal CO2 constants are
written as exact fractions (0.15 = 3/20 and so on). -/
def AMAZON_BOX_SIZES : List BoxType :=
  [ { name := "Small Box (S3)", length := 25, width := 20, height := 12,
      volume := 6000, maxWeight := 5, baseCO2 := 3/20, perKgCO2 := 6/100 },
    { name := "Medium Box (M3)", length := 35, width := 25, height := 15,
      volume := 13125, maxWeight := 10, baseCO2 := 20/100, perKgCO2 := 55/1000 },
    { name := "Large Box (L4)", length := 45, width := 35, height := 20,
      volume := 31500, maxWeight := 15, baseCO2 := 25/100, perKgCO2 := 5/100 },
    { name := "X-Large Box (X1)", length := 60, width := 40, height := 30,
      volume := 72000, maxWeight := 22, baseCO2 := 30/100, perKgCO2 := 45/1000 } ]

/-- Helper to calculate item volume (App.jsx line 14). -/
def getItemVolume (item : Item) : ℚ := item.length * item.width * item.height

/-- Checks if an item fits into a box based on dimensions and weight
(doesItemFit, App.jsx lines 19-28). -/
def doesItemFit (item : Item) (box : BoxType)
    (currentFilledVolume currentTotalWeight : ℚ) : Bool :=
  decide (item.length ≤ box.length) &&
  decide (item.width ≤ box.width) &&
  decide (item.height ≤ box.height) &&
  decide (currentFilledVolume + getItemVolume item ≤ box.volume) &&
  decide (currentTotalWeight + item.weight ≤ box.maxWeight)

/-- A packed box: the spread copy of a box type together with its assigned
items and the running filled volume / total weight. -/
structure PackedBox where
  type : BoxType
  items : List Item
  filledVolume : ℚ
  totalWeight : ℚ
deriving Repr, DecidableEq, Inhabited

/-- The comparator (a, b) => getItemVolume(b) - getItemVolume(a): items sorted
by volume descending (modelled as the relation used by the stable sort). -/
def itemVolGe (a b : Item) : Prop := getItemVolume b ≤ getItemVolume a

instance : DecidableRel itemVolGe :=
  fun a b => inferInstanceAs (Decidable (getItemVolume b ≤ getItemVolume a))

instance : IsTotal Item itemVolGe :=
  ⟨fun a b => (le_total (getItemVolume a) (getItemVolume b)).symm⟩

instance : IsTrans Item itemVolGe :=
  ⟨fun _ _ _ hab hbc => le_trans hbc hab⟩

/-- The comparator (a, b) => a.volume - b.volume: box types sorted by volume
ascending. -/
def boxVolLe (a b : BoxType) : Prop := a.volume ≤ b.volume

instance : DecidableRel boxVolLe :=
  fun a b => inferInstanceAs (Decidable (a.volume ≤ b.volume))

instance : IsTotal BoxType boxVolLe := ⟨fun a b => le_total a.volume b.volume⟩

instance : IsTrans BoxType boxVolLe := ⟨fun _ _ _ hab hbc => le_trans hab hbc⟩

/-- Stable descending-volume sort of the item list (App.jsx line 41); modern
JS Array.prototype.sort is stable, matching insertion sort. -/
def sortItemsDesc (items : List Item) : List Item :=
  List.insertionSort itemVolGe items

/-- Stable ascending-volume sort of the catalog (App.jsx line 42). -/
def sortBoxesAsc (boxTypes : List BoxType) : List BoxType :=
  List.insertionSort boxVolLe boxTypes

/-- Sums of derived volumes and of weights over an item list. -/
def itemsVolume (l : List Item) : ℚ := (l.map getItemVolume).sum

def itemsWeight (l : List Item) : ℚ := (l.map Item.weight).sum

/-- Phase 1 inner loop (App.jsx lines 46-58): run through the items with a
running filled volume and weight; the first item that does not fit aborts.
On success it returns the accumulated (filledVolume, totalWeight). -/
def phase1Run (box : BoxType) (fv tw : ℚ) : List Item → Option (ℚ × ℚ)
  | [] => some (fv, tw)
  | item :: rest =>
    if doesItemFit item box fv tw then
      phase1Run box (fv + getItemVolume item) (tw + item.weight) rest
    else none

/-- The allItemsFitInOneBox flag for one candidate box type. -/
def phase1Fits (box : BoxType) (l : List Item) : Bool :=
  (phase1Run box 0 0 l).isSome

/-- Phase 1 (App.jsx lines 44-69): try the sorted box types smallest first and
return the single box for the first type in which all items fit. -/
def phase1 (sortedItems : List Item) : List BoxType → Option PackedBox
  | [] => none
  | boxType :: rest =>
    match phase1Run boxType 0 0 sortedItems with
    | some p =>
      some { type := boxType, items := sortedItems,
             filledVolume := p.1, totalWeight := p.2 }
    | none => phase1 sortedItems rest

/-- Appending one item to a packed box, recomputing the running totals
(App.jsx lines 100-102 and the analogous sites). -/
def addItemToBox (box : PackedBox) (item : Item) : PackedBox :=
  { box with items := box.items ++ [item],
             filledVolume := box.filledVolume + getItemVolume item,
             totalWeight := box.totalWeight + item.weight }

/-- Whether the item fits the current state of a packed box. -/
def boxFits (item : Item) (b : PackedBox) : Bool :=
  doesItemFit item b.type b.filledVolume b.totalWeight

/-- The potential fill percentage after adding the item (App.jsx line 88). -/
def potFill (item : Item) (b : PackedBox) : ℚ :=
  ((b.filledVolume + getItemVolume item) / b.type.volume) * 100

/-- The best-fit scan of App.jsx lines 81-95 (and identically lines 216-228):
walks the boxes carrying bestFitBoxIndex (none models -1) and
highestPotentialFill, replacing the candidate only on a strictly higher
potential fill. -/
def bestFitAux (item : Item) : List PackedBox → Nat → Option Nat → ℚ → Option Nat
  | [], _, best, _ => best
  | b :: rest, i, best, highest =>
    if boxFits item b then
      if highest < potFill item b then
        bestFitAux item rest (i + 1) (some i) (potFill item b)
      else
        bestFitAux item rest (i + 1) best highest
    else
      bestFitAux item rest (i + 1) best highest

def bestFitBoxIndex (item : Item) (boxes : List PackedBox) : Option Nat :=
  bestFitAux item boxes 0 none (-1)

/-- The opportunistic fill pass of App.jsx lines 104-115 (and 133-144): walk
the still-pending items in order, adding each that fits into the target box
(whose running state advances) and keeping the rest pending, in order. -/
def fillBoxWithPending (box : PackedBox) : List Item → PackedBox × List Item
  | [] => (box, [])
  | item :: rest =>
    if boxFits item box then
      fillBoxWithPending (addItemToBox box item) rest
    else
      let fr := fillBoxWithPending box rest
      (fr.1, item :: fr.2)

/-- The inline fit test used when opening a new box in Phase 2
(App.jsx lines 120-123): axis checks plus the weight limit, no volume check. -/
def newBoxFitsCheck (item : Item) (box : BoxType) : Bool :=
  decide (item.length ≤ box.length) &&
  decide (item.width ≤ box.width) &&
  decide (item.height ≤ box.height) &&
  decide (item.weight ≤ box.maxWeight)

/-- Lookup of the smallest new box type for the current item
(App.jsx lines 119-124). -/
def newBoxCandidate (item : Item) (sortedBoxesAsc : List BoxType) : Option BoxType :=
  sortedBoxesAsc.find? (fun box => newBoxFitsCheck item box)

/-- Phase 2 main loop (App.jsx lines 78-152).  The first component of the
result is packedBoxes; the second collects the items dropped as unpackable
(each of which the code reports through console.warn at line 148). -/
def phase2 (sortedBoxesAsc : List BoxType) :
    List PackedBox → List Item → List Item → List PackedBox × List Item
  | packedBoxes, dropped, [] => (packedBoxes, dropped)
  | packedBoxes, dropped, currentItem :: unpackedItems =>
    match bestFitBoxIndex currentItem packedBoxes with
    | some i =>
      let targetBox := addItemToBox (packedBoxes.getD i default) currentItem
      let fr := fillBoxWithPending targetBox unpackedItems
      phase2 sortedBoxesAsc (packedBoxes.set i fr.1) dropped fr.2
    | none =>
      match newBoxCandidate currentItem sortedBoxesAsc with
      | some newBoxType =>
        let newBox : PackedBox :=
          { type := newBoxType, items := [currentItem],
            filledVolume := getItemVolume currentItem,
            totalWeight := currentItem.weight }
        let fr := fillBoxWithPending newBox unpackedItems
        phase2 sortedBoxesAsc (packedBoxes ++ [fr.1]) dropped fr.2
      | none =>
        phase2 sortedBoxesAsc packedBoxes (dropped ++ [currentItem]) unpackedItems
termination_by _ _ pending => pending.length
decreasing_by
  · have hlen : ∀ (b : PackedBox) (l : List Item),
        (fillBoxWithPending b l).2.length ≤ l.length := by
      intro b l
      induction l generalizing b with
      | nil => simp [fillBoxWithPending]
      | cons item rest ih =>
        by_cases h : boxFits item b
        · simpa [fillBoxWithPending, h] using le_trans (ih _) (Nat.le_succ _)
        · simpa [fillBoxWithPending, h] using ih b
    exact Nat.lt_succ_of_le (hlen _ _)
  · have hlen : ∀ (b : PackedBox) (l : List Item),
        (fillBoxWithPending b l).2.length ≤ l.length := by
      intro b l
      induction l generalizing b with
      | nil => simp [fillBoxWithPending]
      | cons item rest ih =>
        by_cases h : boxFits item b
        · simpa [fillBoxWithPending, h] using le_trans (ih _) (Nat.le_succ _)
        · simpa [fillBoxWithPending, h] using ih b
    exact Nat.lt_succ_of_le (hlen _ _)
  · exact Nat.lt_succ_self _

/-- packOptimal (App.jsx lines 38-155), with the unpackable (console.warn)
items returned alongside the packed boxes. -/
def packOptimalFull (items : List Item) (boxTypes : List BoxType) :
    List PackedBox × List Item :=
  if items.isEmpty then ([], [])
  else
    let sortedItems := sortItemsDesc items
    let sorted := sortBoxesAsc boxTypes
    match phase1 sortedItems sorted with
    | some box => ([box], [])
    | none => phase2 sorted [] [] sortedItems

/-- The packing result as returned by the JS function. -/
def packOptimal (items : List Item) (boxTypes : List BoxType) : List PackedBox :=
  (packOptimalFull items boxTypes).1

/-- The items excluded as unpackable (reported via console.warn in the JS). -/
def unpackableItems (items : List Item) (boxTypes : List BoxType) : List Item :=
  (packOptimalFull items boxTypes).2

/-- All items across a list of packed boxes. -/
def packedItems (boxes : List PackedBox) : List Item :=
  boxes.flatMap PackedBox.items

/-- Total filled volume across packed boxes (App.jsx line 159). -/
def totalPackedVolume (packedBoxes : List PackedBox) : ℚ :=
  packedBoxes.foldl (fun sum box => sum + box.filledVolume) 0

/-- Total container volume across packed boxes (App.jsx line 160). -/
def totalBoxesVolume (packedBoxes : List PackedBox) : ℚ :=
  packedBoxes.foldl (fun sum box => sum + box.type.volume) 0

/-- Total carbon impact of the packing (App.jsx lines 165-167). -/
def optimalCO2Impact (packedBoxes : List PackedBox) : ℚ :=
  packedBoxes.foldl (fun sum box => sum + box.type.baseCO2 + box.totalWeight * box.type.perKgCO2) 0

/-- The inline fit test of the per-item smallest-box lookup in
calculateMetrics (App.jsx lines 173-175). -/
def suitableBoxCheck (item : Item) (box : BoxType) : Bool :=
  decide (item.length ≤ box.length) &&
  decide (item.width ≤ box.width) &&
  decide (item.height ≤ box.height) &&
  decide (item.weight ≤ box.maxWeight)

/-- The smallest box able to hold one item alone (App.jsx lines 173-175; the
code sorts the global AMAZON_BOX_SIZES in place, which is already ascending,
then takes the first match). -/
def suitableBoxFor (item : Item) : Option BoxType :=
  (sortBoxesAsc AMAZON_BOX_SIZES).find? (fun box => suitableBoxCheck item box)

/-- Baseline carbon when each item ships alone in its smallest suitable box
(App.jsx lines 171-180); items fitting no box contribute nothing. -/
def individualShipmentCO2 (flatItemList : List Item) : ℚ :=
  flatItemList.foldl (fun sum item =>
    match suitableBoxFor item with
    | some box => sum + box.baseCO2 + item.weight * box.perKgCO2
    | none => sum) 0

/-- The metrics record (App.jsx lines 193-200); the boxBreakdown display
string is presentational and omitted. -/
structure Metrics where
  packedBoxes : List PackedBox
  packagingEfficiencyScore : ℚ
  optimalCO2Impact : ℚ
  co2SavedByConsolidation : ℚ
  totalBoxes : Nat
deriving Repr

/-- calculateMetrics (App.jsx lines 158-201). -/
def calculateMetrics (packedBoxes : List PackedBox) (flatItemList : List Item) : Metrics :=
  { packedBoxes := packedBoxes
    packagingEfficiencyScore :=
      if 0 < totalBoxesVolume packedBoxes then
        (totalPackedVolume packedBoxes / totalBoxesVolume packedBoxes) * 100
      else 0
    optimalCO2Impact := optimalCO2Impact packedBoxes
    co2SavedByConsolidation :=
      individualShipmentCO2 flatItemList - optimalCO2Impact packedBoxes
    totalBoxes := packedBoxes.length }

/-- The q-loop of tryAddItemsToExistingBoxes (App.jsx lines 215-240),
returning (itemsSuccessfullyAdded, simulatedPackedBoxes). -/
def tryAddAux (item : Item) : Nat → List PackedBox → Nat → Nat × List PackedBox
  | 0, boxes, added => (added, boxes)
  | q + 1, boxes, added =>
    match bestFitBoxIndex item boxes with
    | some i =>
      tryAddAux item q (boxes.set i (addItemToBox (boxes.getD i default) item)) (added + 1)
    | none => (added, boxes)

/-- The result record of the consolidation simulator. -/
structure TryAddResult where
  quantityAdded : Nat
  newPackedBoxes : List PackedBox
  success : Bool
deriving Repr, DecidableEq

/-- tryAddItemsToExistingBoxes (App.jsx lines 207-247).  The JS first deep
copies every box (map with spread), so in this value-level model the copy is
the identity; it then places units one at a time with the same best-fit scan
as Phase 2, stopping at the first unit that fits nowhere. -/
def tryAddItemsToExistingBoxes (itemTypeToAdd : Item) (quantityToTry : Nat)
    (existingPackedBoxes : List PackedBox) : TryAddResult :=
  let r := tryAddAux itemTypeToAdd quantityToTry existingPackedBoxes 0
  { quantityAdded := r.1, newPackedBoxes := r.2, success := 0 < r.1 }

/-- Suggestions produced by getBulkOrderSuggestions: the suggestion variant
(type: 'suggestion') and the rejected variant (type: 'tooBig'). -/
inductive Suggestion where
  | suggestion (item : Item) (quantityToSuggest : Nat) (fewerBoxes : Bool)
      (efficiencyImprovement : ℚ) (co2SavedByCombining : ℚ)
      (newTotalBoxes oldTotalBoxes : Nat)
  | tooBig (item : Item) (message : String)
deriving Repr, DecidableEq

/-- The message of the rejected variant (App.jsx line 320). -/
def tooBigMessage : String :=
  "Too large or heavy to fit in with the current order without requiring additional boxes or a larger box type."

/-- Hypothetical metrics for adding quantityAdded units of the saved item to
the existing boxes (App.jsx lines 278-284). -/
def hypotheticalMetricsFor (currentFlatItems : List Item)
    (originalPackedBoxes : List PackedBox) (savedItemType : Item) (q : Nat) : Metrics :=
  let r := tryAddItemsToExistingBoxes savedItemType q originalPackedBoxes
  calculateMetrics r.newPackedBoxes
    (currentFlatItems ++ List.replicate r.quantityAdded savedItemType)

/-- CO2 saved by combining (App.jsx lines 286-299). -/
def co2SavedByCombiningFor (currentFlatItems : List Item) (boxTypes : List BoxType)
    (originalPackedBoxes : List PackedBox) (originalMetrics : Metrics)
    (savedItemType : Item) (q : Nat) : ℚ :=
  let r := tryAddItemsToExistingBoxes savedItemType q originalPackedBoxes
  let savedItemsOnlyFlatList := List.replicate r.quantityAdded savedItemType
  let savedItemsOnlyMetrics :=
    calculateMetrics (packOptimal savedItemsOnlyFlatList boxTypes) savedItemsOnlyFlatList
  originalMetrics.optimalCO2Impact + savedItemsOnlyMetrics.optimalCO2Impact -
    (hypotheticalMetricsFor currentFlatItems originalPackedBoxes savedItemType q).optimalCO2Impact

/-- Efficiency improvement (App.jsx line 301). -/
def efficiencyImprovementFor (currentFlatItems : List Item)
    (originalPackedBoxes : List PackedBox) (originalMetrics : Metrics)
    (savedItemType : Item) (q : Nat) : ℚ :=
  (hypotheticalMetricsFor currentFlatItems originalPackedBoxes savedItemType q).packagingEfficiencyScore -
    originalMetrics.packagingEfficiencyScore

/-- The body of the saved-item loop of getBulkOrderSuggestions
(App.jsx lines 269-323): zero or one suggestion per saved item type. -/
def suggestionFor (currentFlatItems : List Item) (boxTypes : List BoxType)
    (originalPackedBoxes : List PackedBox) (originalMetrics : Metrics)
    (savedItemType : Item) (quantityInSaved : Nat) : List Suggestion :=
  let r := tryAddItemsToExistingBoxes savedItemType quantityInSaved originalPackedBoxes
  if 0 < r.quantityAdded then
    let co2SavedByCombining :=
      co2SavedByCombiningFor currentFlatItems boxTypes originalPackedBoxes
        originalMetrics savedItemType quantityInSaved
    let efficiencyImprovement :=
      efficiencyImprovementFor currentFlatItems originalPackedBoxes
        originalMetrics savedItemType quantityInSaved
    if 1/100 < co2SavedByCombining ∨ 1/10 < efficiencyImprovement then
      [Suggestion.suggestion savedItemType r.quantityAdded false
        efficiencyImprovement co2SavedByCombining
        originalMetrics.totalBoxes originalMetrics.totalBoxes]
    else []
  else
    [Suggestion.tooBig savedItemType tooBigMessage]

/-- getBulkOrderSuggestions (App.jsx lines 259-326).  The saved-for-later map
is modelled as its entry list (item type with its saved quantity) in JS
for-in key order. -/
def getBulkOrderSuggestions (currentFlatItems : List Item)
    (savedForLaterItemsMap : List (Item × Nat)) (boxTypes : List BoxType) :
    List Suggestion :=
  if savedForLaterItemsMap.isEmpty then []
  else
    let originalPackedBoxes := packOptimal currentFlatItems boxTypes
    let originalMetrics := calculateMetrics originalPackedBoxes currentFlatItems
    savedForLaterItemsMap.flatMap (fun e =>
      suggestionFor currentFlatItems boxTypes originalPackedBoxes originalMetrics e.1 e.2)

/-- The running totals are exactly the sums over the assigned items. -/
def boxSumsOk (b : PackedBox) : Prop :=
  b.filledVolume = itemsVolume b.items ∧ b.totalWeight = itemsWeight b.items

/-- The running totals respect the container limits. -/
def boxWithinLimits (b : PackedBox) : Prop :=
  b.filledVolume ≤ b.type.volume ∧ b.totalWeight ≤ b.type.maxWeight

/-- The full invariant carried by every box the Packing Engine builds:
its type is a catalog entry, its items come from the input pool, its running
totals are the item sums, and the limits are respected. -/
def goodBox (catalog : List BoxType) (pool : List Item) (b : PackedBox) : Prop :=
  b.type ∈ catalog ∧ (∀ i ∈ b.items, i ∈ pool) ∧ boxSumsOk b ∧ boxWithinLimits b

/-- Suffix view of the best-fit scan: the relative index chosen in the given
suffix when the running highest fill so far is the given bound. -/
def bestFitFrom (item : Item) : List PackedBox → ℚ → Option Nat
  | [], _ => none
  | b :: rest, highest =>
    if boxFits item b ∧ highest < potFill item b then
      match bestFitFrom item rest (potFill item b) with
      | some j => some (j + 1)
      | none => some 0
    else
      match bestFitFrom item rest highest with
      | some j => some (j + 1)
      | none => none

/-- The freshly opened box of Phase 2 (App.jsx lines 127-132). -/
def newBoxFor (c : Item) (t : BoxType) : PackedBox :=
  { type := t, items := [c], filledVolume := getItemVolume c,
    totalWeight := c.weight }

/-- One best-fit placement step of the simulator loop. -/
def placeOne (item : Item) (bs : List PackedBox) : List PackedBox :=
  match bestFitBoxIndex item bs with
  | some i => bs.set i (addItemToBox (bs.getD i default) item)
  | none => bs

/-- The first k placement steps. -/
def placeUnits (item : Item) : Nat → List PackedBox → List PackedBox
  | 0, bs => bs
  | n + 1, bs => placeUnits item n (placeOne item bs)

/-! ### Concrete records used by the examples (App.jsx predefinedItems and
the spec's test examples) -/

/-- Book (App.jsx line 380): 25 times 18 times 4 cm, 0.8 kg. -/
def book : Item := { name := "Book", length := 25, width := 18, height := 4, weight := 8/10 }

/-- Coffee Mug (App.jsx line 382): 12 times 9 times 10 cm, 0.4 kg. -/
def mug : Item := { name := "Coffee Mug", length := 12, width := 9, height := 10, weight := 4/10 }

/-- Laptop (App.jsx line 381). -/
def laptop : Item := { name := "Laptop", length := 35, width := 25, height := 3, weight := 2 }

/-- Keyboard (App.jsx line 385). -/
def keyboard : Item := { name := "Keyboard", length := 45, width := 15, height := 4, weight := 1 }

/-- The 30 kg item of the spec's unpackable example (heavier than every
maximum weight in the catalog). -/
def heavyItem : Item := { name := "Anvil", length := 10, width := 10, height := 10, weight := 30 }

/-- The Small catalog entry. -/
def smallBox : BoxType :=
  { name := "Small Box (S3)", length := 25, width := 20, height := 12,
    volume := 6000, maxWeight := 5, baseCO2 := 3/20, perKgCO2 := 6/100 }

/-- The X-Large catalog entry (used by the carbon counterexample). -/
def xLargeBox : BoxType :=
  { name := "X-Large Box (X1)", length := 60, width := 40, height := 30,
    volume := 72000, maxWeight := 22, baseCO2 := 30/100, perKgCO2 := 45/1000 }

/-- A single book packed (wastefully) into an X-Large box: a well-formed
PackedContainer on which consolidation is worse than shipping separately. -/
def wastefulPacking : List PackedBox :=
  [ { type := xLargeBox, items := [book], filledVolume := 1800, totalWeight := 8/10 } ]

/-! ### Reference-semantics rendering for the frame claim

The JS functions mutate objects through references.  To state that they never
mutate their caller's data, the same source lines are rendered once more in
explicit store-passing style: arrays of items, arrays of container types and
box objects live in a heap addressed by allocation order, and every JS
mutation becomes a write to an address.  Fresh objects are allocated at the
current counter, so "the caller's data" is exactly the cells below the
counter at entry. -/

/-- A JS box object: the scalar fields copied by the spread, a reference to
its items array, and the two mutable running totals. -/
structure JBoxObj where
  type : BoxType
  itemsRef : Nat
  filledVolume : ℚ
  totalWeight : ℚ
deriving Repr, DecidableEq, Inhabited

/-- The heap: an allocation counter and three stores (item arrays, container
type arrays, box objects).  Unallocated cells carry junk defaults. -/
structure JSHeap where
  next : Nat
  itemArrs : Nat → List Item
  typeArrs : Nat → List BoxType
  boxObjs : Nat → JBoxObj

/-- Allocate a fresh item-array cell. -/
def JSHeap.allocItems (s : JSHeap) (l : List Item) : JSHeap × Nat :=
  ({ s with
      next := s.next + 1
      itemArrs := fun a => if a = s.next then l else s.itemArrs a }, s.next)

/-- Allocate a fresh box-object cell. -/
def JSHeap.allocBox (s : JSHeap) (b : JBoxObj) : JSHeap × Nat :=
  ({ s with
      next := s.next + 1
      boxObjs := fun a => if a = s.next then b else s.boxObjs a }, s.next)

/-- Overwrite an item-array cell (an Array.prototype.push). -/
def JSHeap.writeItems (s : JSHeap) (r : Nat) (l : List Item) : JSHeap :=
  { s with itemArrs := fun a => if a = r then l else s.itemArrs a }

/-- Overwrite a box-object cell (a compound-assignment to its fields). -/
def JSHeap.writeBox (s : JSHeap) (r : Nat) (b : JBoxObj) : JSHeap :=
  { s with boxObjs := fun a => if a = r then b else s.boxObjs a }

/-- The fit test against a live box object. -/
def jBoxFits (item : Item) (b : JBoxObj) : Bool :=
  doesItemFit item b.type b.filledVolume b.totalWeight

/-- The potential fill of a live box object. -/
def jPotFill (item : Item) (b : JBoxObj) : ℚ :=
  ((b.filledVolume + getItemVolume item) / b.type.volume) * 100

/-- The best-fit scan over box references (App.jsx lines 81-95 / 216-228),
reading the heap. -/
def bestFitAuxH (s : JSHeap) (item : Item) :
    List Nat → Nat → Option Nat → ℚ → Option Nat
  | [], _, best, _ => best
  | r :: rest, i, best, highest =>
    if jBoxFits item (s.boxObjs r) then
      if highest < jPotFill item (s.boxObjs r) then
        bestFitAuxH s item rest (i + 1) (some i) (jPotFill item (s.boxObjs r))
      else
        bestFitAuxH s item rest (i + 1) best highest
    else
      bestFitAuxH s item rest (i + 1) best highest

def bestFitBoxIndexH (s : JSHeap) (item : Item) (refs : List Nat) : Option Nat :=
  bestFitAuxH s item refs 0 none (-1)

/-- Appending one item to a live box: push onto its items array and update
its running totals (App.jsx lines 100-102 etc.). -/
def addItemToBoxH (s : JSHeap) (r : Nat) (item : Item) : JSHeap :=
  let b := s.boxObjs r
  let s1 := s.writeItems b.itemsRef (s.itemArrs b.itemsRef ++ [item])
  s1.writeBox r
    { b with filledVolume := b.filledVolume + getItemVolume item,
             totalWeight := b.totalWeight + item.weight }

/-- The opportunistic fill pass over a live box (App.jsx lines 104-115 and
133-144). -/
def fillBoxH (s : JSHeap) (r : Nat) : List Item → JSHeap × List Item
  | [] => (s, [])
  | item :: rest =>
    if jBoxFits item (s.boxObjs r) then
      fillBoxH (addItemToBoxH s r item) r rest
    else
      let p := fillBoxH s r rest
      (p.1, item :: p.2)

/-- Phase 2 over the heap (App.jsx lines 78-152); dropped items are only
warned about, so they do not appear in the state. -/
def phase2H (sortedBoxesAsc : List BoxType) :
    JSHeap → List Nat → List Item → JSHeap × List Nat
  | s, packedRefs, [] => (s, packedRefs)
  | s, packedRefs, currentItem :: unpackedItems =>
    match bestFitBoxIndexH s currentItem packedRefs with
    | some i =>
      let r := packedRefs.getD i 0
      let f := fillBoxH (addItemToBoxH s r currentItem) r unpackedItems
      phase2H sortedBoxesAsc f.1 packedRefs f.2
    | none =>
      match newBoxCandidate currentItem sortedBoxesAsc with
      | some t =>
        let pa := JSHeap.allocItems s [currentItem]
        let pb := JSHeap.allocBox pa.1
          { type := t, itemsRef := pa.2,
            filledVolume := getItemVolume currentItem,
            totalWeight := currentItem.weight }
        let f := fillBoxH pb.1 pb.2 unpackedItems
        phase2H sortedBoxesAsc f.1 (packedRefs ++ [pb.2]) f.2
      | none => phase2H sortedBoxesAsc s packedRefs unpackedItems
termination_by _ _ pending => pending.length
decreasing_by
  · have hlen : ∀ (s : JSHeap) (r : Nat) (l : List Item),
        (fillBoxH s r l).2.length ≤ l.length := by
      intro s r l
      induction l generalizing s with
      | nil => simp [fillBoxH]
      | cons item rest ih =>
        by_cases h : jBoxFits item (s.boxObjs r)
        · simpa [fillBoxH, h] using le_trans (ih _) (Nat.le_succ _)
        · simpa [fillBoxH, h] using ih s
    exact Nat.lt_succ_of_le (hlen _ _ _)
  · have hlen : ∀ (s : JSHeap) (r : Nat) (l : List Item),
        (fillBoxH s r l).2.length ≤ l.length := by
      intro s r l
      induction l generalizing s with
      | nil => simp [fillBoxH]
      | cons item rest ih =>
        by_cases h : jBoxFits item (s.boxObjs r)
        · simpa [fillBoxH, h] using le_trans (ih _) (Nat.le_succ _)
        · simpa [fillBoxH, h] using ih s
    exact Nat.lt_succ_of_le (hlen _ _ _)
  · exact Nat.lt_succ_self _

/-- packOptimal over the heap (App.jsx lines 38-155): the arguments are the
addresses of the caller's items array and catalog array; the returned refs
are the packed-box objects.  The local copies made by the spreads at lines
41-42 never escape, so they stay value-level. -/
def packOptimalH (s : JSHeap) (aItems aTypes : Nat) : JSHeap × List Nat :=
  let items := s.itemArrs aItems
  if items.isEmpty then (s, [])
  else
    let sortedItems := sortItemsDesc items
    let sorted := sortBoxesAsc (s.typeArrs aTypes)
    match phase1 sortedItems sorted with
    | some b =>
      let pa := JSHeap.allocItems s sortedItems
      let pb := JSHeap.allocBox pa.1
        { type := b.type, itemsRef := pa.2,
          filledVolume := b.filledVolume, totalWeight := b.totalWeight }
      (pb.1, [pb.2])
    | none => phase2H sorted s [] sortedItems

/-- The copy pass of the simulator (App.jsx lines 208-211): a fresh object
with a fresh items array per existing box. -/
def copySimBoxes (s : JSHeap) : List Nat → JSHeap × List Nat
  | [] => (s, [])
  | r :: rest =>
    let b := s.boxObjs r
    let pa := JSHeap.allocItems s (s.itemArrs b.itemsRef)
    let pb := JSHeap.allocBox pa.1 { b with itemsRef := pa.2 }
    let p := copySimBoxes pb.1 rest
    (p.1, pb.2 :: p.2)

/-- The unit loop of the simulator (App.jsx lines 215-240). -/
def tryAddLoopH (item : Item) : Nat → JSHeap → List Nat → Nat → JSHeap × Nat
  | 0, s, _, added => (s, added)
  | q + 1, s, simRefs, added =>
    match bestFitBoxIndexH s item simRefs with
    | some i => tryAddLoopH item q (addItemToBoxH s (simRefs.getD i 0) item)
        simRefs (added + 1)
    | none => (s, added)

/-- tryAddItemsToExistingBoxes over the heap (App.jsx lines 207-247):
returns the final heap, the quantity added and the simulated box refs. -/
def tryAddItemsToExistingBoxesH (s : JSHeap) (itemTypeToAdd : Item)
    (quantityToTry : Nat) (existingRefs : List Nat) : JSHeap × Nat × List Nat :=
  let c := copySimBoxes s existingRefs
  let l := tryAddLoopH itemTypeToAdd quantityToTry c.1 c.2 0
  (l.1, l.2, c.2)

/-- Heap agreement below an address bound: every older cell is unchanged. -/
def heapAgreesBelow (s1 s2 : JSHeap) (base : Nat) : Prop :=
  ∀ a, a < base → s2.itemArrs a = s1.itemArrs a ∧
    s2.typeArrs a = s1.typeArrs a ∧ s2.boxObjs a = s1.boxObjs a

/-- A small concrete heap used by the frame witness: the caller's item list
at address 0, the catalog at address 1 and one packed box object at
address 2 (its items array is the cell at address 0). -/
def exampleHeap : JSHeap :=
  { next := 3
    itemArrs := fun a => if a = 0 then [book] else []
    typeArrs := fun a => if a = 1 then AMAZON_BOX_SIZES else []
    boxObjs := fun a =>
      if a = 2 then
        { type := xLargeBox, itemsRef := 0, filledVolume := 1800,
          totalWeight := 8/10 }
      else
        { type := xLargeBox, itemsRef := 0, filledVolume := 0,
          totalWeight := 0 } }

/-! ### Basic lemmas about the fit predicates and running sums -/

theorem fillBoxWithPending_pending_length (box : PackedBox) (l : List Item) :
    (fillBoxWithPending box l).2.length ≤ l.length := by
  induction l generalizing box with
  | nil => simp [fillBoxWithPending]
  | cons item rest ih =>
    by_cases h : boxFits item box
    · simpa [fillBoxWithPending, h] using le_trans (ih _) (Nat.le_succ _)
    · simpa [fillBoxWithPending, h] using ih box

theorem doesItemFit_iff (item : Item) (box : BoxType) (fv tw : ℚ) :
    doesItemFit item box fv tw = true ↔
      item.length ≤ box.length ∧ item.width ≤ box.width ∧
      item.height ≤ box.height ∧ fv + getItemVolume item ≤ box.volume ∧
      tw + item.weight ≤ box.maxWeight := by
  simp [doesItemFit, and_assoc]

theorem newBoxFitsCheck_iff (item : Item) (box : BoxType) :
    newBoxFitsCheck item box = true ↔
      item.length ≤ box.length ∧ item.width ≤ box.width ∧
      item.height ≤ box.height ∧ item.weight ≤ box.maxWeight := by
  simp [newBoxFitsCheck, and_assoc]

theorem suitableBoxCheck_iff (item : Item) (box : BoxType) :
    suitableBoxCheck item box = true ↔
      item.length ≤ box.length ∧ item.width ≤ box.width ∧
      item.height ≤ box.height ∧ item.weight ≤ box.maxWeight := by
  simp [suitableBoxCheck, and_assoc]

@[simp] theorem itemsVolume_nil : itemsVolume [] = 0 := rfl

@[simp] theorem itemsVolume_cons (i : Item) (l : List Item) :
    itemsVolume (i :: l) = getItemVolume i + itemsVolume l := by
  simp [itemsVolume]

@[simp] theorem itemsVolume_append (l₁ l₂ : List Item) :
    itemsVolume (l₁ ++ l₂) = itemsVolume l₁ + itemsVolume l₂ := by
  simp [itemsVolume]

@[simp] theorem itemsWeight_nil : itemsWeight [] = 0 := rfl

@[simp] theorem itemsWeight_cons (i : Item) (l : List Item) :
    itemsWeight (i :: l) = i.weight + itemsWeight l := by
  simp [itemsWeight]

@[simp] theorem itemsWeight_append (l₁ l₂ : List Item) :
    itemsWeight (l₁ ++ l₂) = itemsWeight l₁ + itemsWeight l₂ := by
  simp [itemsWeight]

theorem itemsVolume_nonneg {l : List Item}
    (h : ∀ i ∈ l, 0 ≤ getItemVolume i) : 0 ≤ itemsVolume l := by
  induction l with
  | nil => simp
  | cons i rest ih =>
    have := h i (by simp)
    have hr := ih fun j hj => h j (by simp [hj])
    simp only [itemsVolume_cons]
    linarith

theorem itemsWeight_nonneg {l : List Item}
    (h : ∀ i ∈ l, 0 ≤ i.weight) : 0 ≤ itemsWeight l := by
  induction l with
  | nil => simp
  | cons i rest ih =>
    have := h i (by simp)
    have hr := ih fun j hj => h j (by simp [hj])
    simp only [itemsWeight_cons]
    linarith

theorem getItemVolume_nonneg {i : Item}
    (h : 0 ≤ i.length ∧ 0 ≤ i.width ∧ 0 ≤ i.height) : 0 ≤ getItemVolume i := by
  exact mul_nonneg (mul_nonneg h.1 h.2.1) h.2.2

/-- An item that passes the axis and weight checks of a catalog entry whose
declared volume dominates its dimensions has volume below the entry volume. -/
theorem vol_le_of_newBoxFitsCheck {i : Item} {t : BoxType}
    (hc : newBoxFitsCheck i t = true)
    (hd : 0 ≤ i.length ∧ 0 ≤ i.width ∧ 0 ≤ i.height)
    (ht : t.length * t.width * t.height ≤ t.volume) :
    getItemVolume i ≤ t.volume := by
  rcases (newBoxFitsCheck_iff i t).1 hc with ⟨h1, h2, h3, _⟩
  have hw : 0 ≤ t.width := le_trans hd.2.1 h2
  have hlw : i.length * i.width ≤ t.length * t.width :=
    mul_le_mul h1 h2 hd.2.1 (le_trans hd.1 h1)
  have : i.length * i.width * i.height ≤ t.length * t.width * t.height :=
    mul_le_mul hlw h3 hd.2.2 (mul_nonneg (le_trans hd.1 h1) hw)
  exact le_trans this ht

/-! ### Invariants of packed boxes -/

@[simp] theorem addItemToBox_type (b : PackedBox) (i : Item) :
    (addItemToBox b i).type = b.type := rfl

theorem boxSumsOk_addItemToBox {b : PackedBox} (i : Item) (h : boxSumsOk b) :
    boxSumsOk (addItemToBox b i) := by
  rcases h with ⟨h1, h2⟩
  constructor <;> simp [addItemToBox, h1, h2]

theorem boxWithinLimits_addItemToBox {b : PackedBox} {i : Item}
    (hfit : boxFits i b = true) : boxWithinLimits (addItemToBox b i) := by
  rcases (doesItemFit_iff i b.type b.filledVolume b.totalWeight).1 hfit with
    ⟨_, _, _, h4, h5⟩
  exact ⟨h4, h5⟩

theorem boxFits_weight_le {b : PackedBox} {i : Item}
    (hfit : boxFits i b = true) (hs : boxSumsOk b)
    (hw : ∀ j ∈ b.items, 0 ≤ j.weight) :
    newBoxFitsCheck i b.type = true := by
  rcases (doesItemFit_iff i b.type b.filledVolume b.totalWeight).1 hfit with
    ⟨h1, h2, h3, _, h5⟩
  have htw : 0 ≤ b.totalWeight := hs.2 ▸ itemsWeight_nonneg hw
  exact (newBoxFitsCheck_iff i b.type).2 ⟨h1, h2, h3, by linarith⟩

/-! ### Phase 1 lemmas -/

theorem phase1Run_some_eq {box : BoxType} {l : List Item} :
    ∀ {fv tw : ℚ} {p : ℚ × ℚ}, phase1Run box fv tw l = some p →
      p = (fv + itemsVolume l, tw + itemsWeight l) := by
  induction l with
  | nil => intro fv tw p h; simp [phase1Run] at h; simp [← h]
  | cons i rest ih =>
    intro fv tw p h
    by_cases hf : doesItemFit i box fv tw
    · simp only [phase1Run, hf, if_true] at h
      have := ih h
      simp [this, itemsVolume_cons, itemsWeight_cons]
      constructor <;> ring
    · simp [phase1Run, hf] at h

theorem phase1Run_some_within {box : BoxType} {l : List Item} (hne : l ≠ []) :
    ∀ {fv tw : ℚ} {p : ℚ × ℚ}, phase1Run box fv tw l = some p →
      p.1 ≤ box.volume ∧ p.2 ≤ box.maxWeight := by
  induction l with
  | nil => exact absurd rfl hne
  | cons i rest ih =>
    intro fv tw p h
    by_cases hf : doesItemFit i box fv tw
    · simp only [phase1Run, hf, if_true] at h
      rcases (doesItemFit_iff i box fv tw).1 hf with ⟨_, _, _, h4, h5⟩
      rcases List.eq_nil_or_concat rest with hr | ⟨_, _, hr⟩
      · subst hr
        simp [phase1Run] at h
        constructor <;> simp [← h, h4, h5]
      · have hne2 : rest ≠ [] := by simp [hr]
        exact ih hne2 h
    · simp [phase1Run, hf] at h

theorem phase1Run_some_canHold {box : BoxType} {l : List Item} :
    ∀ {fv tw : ℚ} {p : ℚ × ℚ}, 0 ≤ tw → (∀ i ∈ l, 0 ≤ i.weight) →
      phase1Run box fv tw l = some p →
      ∀ i ∈ l, newBoxFitsCheck i box = true := by
  induction l with
  | nil => intro _ _ _ _ _ _ i hi; simp at hi
  | cons j rest ih =>
    intro fv tw p htw hw h i hi
    by_cases hf : doesItemFit j box fv tw
    · simp only [phase1Run, hf, if_true] at h
      rcases List.mem_cons.1 hi with rfl | hi
      · rcases (doesItemFit_iff i box fv tw).1 hf with ⟨h1, h2, h3, _, h5⟩
        exact (newBoxFitsCheck_iff i box).2 ⟨h1, h2, h3, by linarith⟩
      · have htw2 : 0 ≤ tw + j.weight := by
          have := hw j (by simp); linarith
        exact ih htw2 (fun k hk => hw k (by simp [hk])) h i hi
    · simp [phase1Run, hf] at h

/-! ### Lemmas about the opportunistic fill pass -/

theorem fillBoxWithPending_type (box : PackedBox) (l : List Item) :
    (fillBoxWithPending box l).1.type = box.type := by
  induction l generalizing box with
  | nil => simp [fillBoxWithPending]
  | cons item rest ih =>
    by_cases h : boxFits item box
    · simpa [fillBoxWithPending, h] using ih (addItemToBox box item)
    · simpa [fillBoxWithPending, h] using ih box

theorem fillBoxWithPending_sums {box : PackedBox} (l : List Item)
    (hs : boxSumsOk box) : boxSumsOk (fillBoxWithPending box l).1 := by
  induction l generalizing box with
  | nil => simpa [fillBoxWithPending] using hs
  | cons item rest ih =>
    by_cases h : boxFits item box
    · simpa [fillBoxWithPending, h] using ih (boxSumsOk_addItemToBox item hs)
    · simpa [fillBoxWithPending, h] using ih hs

theorem fillBoxWithPending_within {box : PackedBox} (l : List Item)
    (hw : boxWithinLimits box) : boxWithinLimits (fillBoxWithPending box l).1 := by
  induction l generalizing box with
  | nil => simpa [fillBoxWithPending] using hw
  | cons item rest ih =>
    by_cases h : boxFits item box
    · simpa [fillBoxWithPending, h] using ih (boxWithinLimits_addItemToBox h)
    · simpa [fillBoxWithPending, h] using ih hw

theorem fillBoxWithPending_cons_fits {box : PackedBox} {item : Item}
    (rest : List Item) (h : boxFits item box = true) :
    fillBoxWithPending box (item :: rest) =
      fillBoxWithPending (addItemToBox box item) rest := by
  simp [fillBoxWithPending, h]

theorem fillBoxWithPending_cons_nofit {box : PackedBox} {item : Item}
    (rest : List Item) (h : ¬ boxFits item box = true) :
    fillBoxWithPending box (item :: rest) =
      ((fillBoxWithPending box rest).1, item :: (fillBoxWithPending box rest).2) := by
  simp [fillBoxWithPending, h]

/-- Multiset bookkeeping of the fill pass: the target box's items plus the
still-pending items are exactly the original items plus the original pending. -/
theorem fillBoxWithPending_perm (box : PackedBox) (l : List Item) :
    ((fillBoxWithPending box l).1.items : Multiset Item) +
      ((fillBoxWithPending box l).2 : Multiset Item) =
      (box.items : Multiset Item) + (l : Multiset Item) := by
  induction l generalizing box with
  | nil => simp [fillBoxWithPending]
  | cons item rest ih =>
    by_cases h : boxFits item box
    · rw [fillBoxWithPending_cons_fits rest h, ih (addItemToBox box item)]
      simp only [addItemToBox, ← Multiset.coe_add, ← Multiset.cons_coe,
        Multiset.coe_singleton, ← Multiset.singleton_add]
      abel
    · rw [fillBoxWithPending_cons_nofit rest h]
      simp only [← Multiset.cons_coe, ← Multiset.singleton_add]
      rw [← add_assoc, add_comm ((fillBoxWithPending box rest).1.items : Multiset Item) _,
        add_assoc, ih box, ← add_assoc, add_comm _ (box.items : Multiset Item), add_assoc]

theorem fillBoxWithPending_pending_sub (box : PackedBox) (l : List Item) :
    ∀ i ∈ (fillBoxWithPending box l).2, i ∈ l := by
  induction l generalizing box with
  | nil => simp [fillBoxWithPending]
  | cons item rest ih =>
    intro i hi
    by_cases h : boxFits item box
    · rw [fillBoxWithPending_cons_fits rest h] at hi
      exact List.mem_cons_of_mem item (ih (addItemToBox box item) i hi)
    · rw [fillBoxWithPending_cons_nofit rest h] at hi
      rcases List.mem_cons.1 hi with rfl | hi
      · exact List.mem_cons_self i rest
      · exact List.mem_cons_of_mem item (ih box i hi)

theorem fillBoxWithPending_items_src (box : PackedBox) (l : List Item) :
    ∀ i ∈ (fillBoxWithPending box l).1.items, i ∈ box.items ∨ i ∈ l := by
  induction l generalizing box with
  | nil => intro i hi; simp [fillBoxWithPending] at hi; exact Or.inl hi
  | cons item rest ih =>
    intro i hi
    by_cases h : boxFits item box
    · rw [fillBoxWithPending_cons_fits rest h] at hi
      rcases ih (addItemToBox box item) i hi with hsrc | hsrc
      · simp only [addItemToBox, List.mem_append, List.mem_singleton] at hsrc
        rcases hsrc with hsrc | rfl
        · exact Or.inl hsrc
        · exact Or.inr (List.mem_cons_self i rest)
      · exact Or.inr (List.mem_cons_of_mem item hsrc)
    · rw [fillBoxWithPending_cons_nofit rest h] at hi
      rcases ih box i hi with hsrc | hsrc
      · exact Or.inl hsrc
      · exact Or.inr (List.mem_cons_of_mem item hsrc)

/-- Every item the fill pass adds to the box passed the fit gate at a state
with nonnegative running weight, hence satisfies the axis and weight check of
the box's own type. -/
theorem fillBoxWithPending_canHold {box : PackedBox} (l : List Item)
    (hs : boxSumsOk box) (hbw : ∀ j ∈ box.items, 0 ≤ j.weight)
    (hlw : ∀ j ∈ l, 0 ≤ j.weight) :
    ∀ i ∈ (fillBoxWithPending box l).1.items,
      i ∈ box.items ∨ newBoxFitsCheck i box.type = true := by
  induction l generalizing box with
  | nil => intro i hi; simp [fillBoxWithPending] at hi; exact Or.inl hi
  | cons item rest ih =>
    intro i hi
    by_cases h : boxFits item box
    · rw [fillBoxWithPending_cons_fits rest h] at hi
      have hbw2 : ∀ j ∈ (addItemToBox box item).items, 0 ≤ j.weight := by
        intro j hj
        simp only [addItemToBox, List.mem_append, List.mem_singleton] at hj
        rcases hj with hj | rfl
        · exact hbw j hj
        · exact hlw j (List.mem_cons_self j rest)
      have := ih (boxSumsOk_addItemToBox item hs) hbw2
        (fun j hj => hlw j (List.mem_cons_of_mem item hj)) i hi
      rcases this with hsrc | hchk
      · simp only [addItemToBox, List.mem_append, List.mem_singleton] at hsrc
        rcases hsrc with hsrc | rfl
        · exact Or.inl hsrc
        · exact Or.inr (boxFits_weight_le h hs hbw)
      · exact Or.inr hchk
    · rw [fillBoxWithPending_cons_nofit rest h] at hi
      exact ih hs hbw (fun j hj => hlw j (List.mem_cons_of_mem item hj)) i hi

/-! ### Characterization of the best-fit scan -/

theorem bestFitAux_cons_take {item : Item} {b : PackedBox} {highest : ℚ}
    (rest : List PackedBox) (i : Nat) (best : Option Nat)
    (h1 : boxFits item b = true) (h2 : highest < potFill item b) :
    bestFitAux item (b :: rest) i best highest =
      bestFitAux item rest (i + 1) (some i) (potFill item b) := by
  simp [bestFitAux, h1, h2]

theorem bestFitAux_cons_skip {item : Item} {b : PackedBox} {highest : ℚ}
    (rest : List PackedBox) (i : Nat) (best : Option Nat)
    (h : ¬ (boxFits item b = true ∧ highest < potFill item b)) :
    bestFitAux item (b :: rest) i best highest =
      bestFitAux item rest (i + 1) best highest := by
  by_cases h1 : boxFits item b
  · have h2 : ¬ highest < potFill item b := fun h2 => h ⟨h1, h2⟩
    simp [bestFitAux, h1, h2]
  · simp [bestFitAux, h1]

theorem bestFitFrom_cons_take {item : Item} {b : PackedBox} {highest : ℚ}
    (rest : List PackedBox)
    (h1 : boxFits item b = true) (h2 : highest < potFill item b) :
    bestFitFrom item (b :: rest) highest =
      match bestFitFrom item rest (potFill item b) with
      | some j => some (j + 1)
      | none => some 0 := by
  simp [bestFitFrom, h1, h2]

theorem bestFitFrom_cons_skip {item : Item} {b : PackedBox} {highest : ℚ}
    (rest : List PackedBox)
    (h : ¬ (boxFits item b = true ∧ highest < potFill item b)) :
    bestFitFrom item (b :: rest) highest =
      match bestFitFrom item rest highest with
      | some j => some (j + 1)
      | none => none := by
  simp only [bestFitFrom, if_neg h]

theorem bestFitAux_eq_bestFitFrom (item : Item) (boxes : List PackedBox) :
    ∀ (i : Nat) (best : Option Nat) (highest : ℚ),
      bestFitAux item boxes i best highest =
        match bestFitFrom item boxes highest with
        | some j => some (i + j)
        | none => best := by
  induction boxes with
  | nil => intro i best highest; simp [bestFitAux, bestFitFrom]
  | cons b rest ih =>
    intro i best highest
    by_cases hc : boxFits item b = true ∧ highest < potFill item b
    · rw [bestFitAux_cons_take rest i best hc.1 hc.2, bestFitFrom_cons_take rest hc.1 hc.2]
      rw [ih (i + 1) (some i) (potFill item b)]
      rcases hj : bestFitFrom item rest (potFill item b) with _ | j
      · simp
      · simp only []
        congr 1
        omega
    · rw [bestFitAux_cons_skip rest i best hc, bestFitFrom_cons_skip rest hc]
      rw [ih (i + 1) best highest]
      rcases hj : bestFitFrom item rest highest with _ | j
      · simp
      · simp only []
        congr 1
        omega

theorem bestFitBoxIndex_eq (item : Item) (boxes : List PackedBox) :
    bestFitBoxIndex item boxes = bestFitFrom item boxes (-1) := by
  rw [bestFitBoxIndex, bestFitAux_eq_bestFitFrom]
  rcases hj : bestFitFrom item boxes (-1) with _ | j <;> simp

theorem bestFitFrom_none {item : Item} {boxes : List PackedBox} {h : ℚ} :
    bestFitFrom item boxes h = none →
      ∀ b ∈ boxes, boxFits item b = true → potFill item b ≤ h := by
  induction boxes generalizing h with
  | nil => intro _ b hb; simp at hb
  | cons c rest ih =>
    intro hnone b hb hbf
    by_cases hc : boxFits item c = true ∧ h < potFill item c
    · rw [bestFitFrom_cons_take rest hc.1 hc.2] at hnone
      rcases hj : bestFitFrom item rest (potFill item c) with _ | j <;>
        simp [hj] at hnone
    · rw [bestFitFrom_cons_skip rest hc] at hnone
      rcases hj : bestFitFrom item rest h with _ | j
      · rcases List.mem_cons.1 hb with rfl | hb
        · exact not_lt.1 (not_and.1 hc hbf)
        · exact ih hj b hb hbf
      · simp [hj] at hnone

theorem bestFitFrom_some {item : Item} {boxes : List PackedBox} :
    ∀ {h : ℚ} {j : Nat}, bestFitFrom item boxes h = some j →
      j < boxes.length ∧ boxFits item (boxes.getD j default) = true ∧
      h < potFill item (boxes.getD j default) ∧
      ∀ k, k < boxes.length → boxFits item (boxes.getD k default) = true →
        h < potFill item (boxes.getD k default) →
        potFill item (boxes.getD k default) ≤ potFill item (boxes.getD j default) ∧
        (k < j → potFill item (boxes.getD k default) < potFill item (boxes.getD j default)) := by
  induction boxes with
  | nil => intro h j hs; simp [bestFitFrom] at hs
  | cons c rest ih =>
    intro h j hs
    by_cases hc : boxFits item c = true ∧ h < potFill item c
    · rw [bestFitFrom_cons_take rest hc.1 hc.2] at hs
      rcases hj : bestFitFrom item rest (potFill item c) with _ | j'
      · rw [hj] at hs
        simp only [Option.some.injEq] at hs
        subst hs
        refine ⟨by simp, by simpa using hc.1, by simpa using hc.2, ?_⟩
        intro k hk hfit hlt
        rcases k with _ | k'
        · exact ⟨le_refl _, fun hcon => absurd hcon (lt_irrefl 0)⟩
        · simp only [List.getD_cons_succ] at hfit hlt ⊢
          simp only [List.length_cons, Nat.succ_lt_succ_iff] at hk
          have hmem : rest.getD k' default ∈ rest := by
            rw [List.getD_eq_getElem rest default hk]
            exact List.getElem_mem hk
          have := bestFitFrom_none hj _ hmem hfit
          simp only [List.getD_cons_zero]
          exact ⟨le_trans this (le_refl _), fun hcon => by omega⟩
      · rw [hj] at hs
        simp only [Option.some.injEq] at hs
        subst hs
        rcases ih hj with ⟨hlen, hfitj, hltj, hall⟩
        refine ⟨by simpa using Nat.succ_lt_succ hlen, by simpa using hfitj,
          lt_trans hc.2 hltj, ?_⟩
        intro k hk hfit hlt
        rcases k with _ | k'
        · simp only [List.getD_cons_zero] at hfit hlt ⊢
          simp only [List.getD_cons_succ]
          exact ⟨le_of_lt hltj, fun _ => hltj⟩
        · simp only [List.getD_cons_succ] at hfit hlt ⊢
          simp only [List.length_cons, Nat.succ_lt_succ_iff] at hk
          by_cases hck : potFill item c < potFill item (rest.getD k' default)
          · have := hall k' hk hfit hck
            exact ⟨this.1, fun hcon => this.2 (by omega)⟩
          · have hle : potFill item (rest.getD k' default) ≤ potFill item c :=
              not_lt.1 hck
            exact ⟨le_of_lt (lt_of_le_of_lt hle hltj),
              fun _ => lt_of_le_of_lt hle hltj⟩
    · rw [bestFitFrom_cons_skip rest hc] at hs
      rcases hj : bestFitFrom item rest h with _ | j'
      · rw [hj] at hs; simp at hs
      · rw [hj] at hs
        simp only [Option.some.injEq] at hs
        subst hs
        rcases ih hj with ⟨hlen, hfitj, hltj, hall⟩
        refine ⟨by simpa using Nat.succ_lt_succ hlen, by simpa using hfitj,
          by simpa using hltj, ?_⟩
        intro k hk hfit hlt
        rcases k with _ | k'
        · simp only [List.getD_cons_zero] at hfit hlt
          exact absurd ⟨hfit, hlt⟩ hc
        · simp only [List.getD_cons_succ] at hfit hlt ⊢
          simp only [List.length_cons, Nat.succ_lt_succ_iff] at hk
          have := hall k' hk hfit hlt
          exact ⟨this.1, fun hcon => this.2 (by omega)⟩

theorem potFill_nonneg {item : Item} {b : PackedBox} (hV : 0 < b.type.volume)
    (hfv : 0 ≤ b.filledVolume) (hv : 0 ≤ getItemVolume item) :
    0 ≤ potFill item b := by
  have : 0 ≤ (b.filledVolume + getItemVolume item) / b.type.volume :=
    div_nonneg (by linarith) (le_of_lt hV)
  unfold potFill
  exact mul_nonneg this (by norm_num)

theorem bestFitBoxIndex_some_spec {item : Item} {boxes : List PackedBox} {i : Nat}
    (hs : bestFitBoxIndex item boxes = some i) :
    i < boxes.length ∧ boxFits item (boxes.getD i default) = true ∧
    ∀ k, k < boxes.length → boxFits item (boxes.getD k default) = true →
      -1 < potFill item (boxes.getD k default) →
      potFill item (boxes.getD k default) ≤ potFill item (boxes.getD i default) ∧
      (k < i → potFill item (boxes.getD k default) < potFill item (boxes.getD i default)) := by
  rw [bestFitBoxIndex_eq] at hs
  rcases bestFitFrom_some hs with ⟨h1, h2, _, h4⟩
  exact ⟨h1, h2, h4⟩

theorem bestFitBoxIndex_none_spec {item : Item} {boxes : List PackedBox}
    (hn : bestFitBoxIndex item boxes = none) :
    ∀ b ∈ boxes, boxFits item b = true → potFill item b ≤ -1 := by
  rw [bestFitBoxIndex_eq] at hn
  exact bestFitFrom_none hn

/-- Under the positivity conditions of the data model the sentinel -1 is never
reached, so a none result means no box fits at all. -/
theorem bestFitBoxIndex_none_iff {item : Item} {boxes : List PackedBox}
    (hpos : ∀ b ∈ boxes, 0 < b.type.volume ∧ 0 ≤ b.filledVolume)
    (hv : 0 ≤ getItemVolume item) :
    bestFitBoxIndex item boxes = none ↔ ∀ b ∈ boxes, boxFits item b = false := by
  constructor
  · intro hn b hb
    rw [Bool.eq_false_iff]
    intro hfit
    have hle := bestFitBoxIndex_none_spec hn b hb hfit
    have := @potFill_nonneg item b (hpos b hb).1 (hpos b hb).2 hv
    linarith
  · intro hall
    rcases hs : bestFitBoxIndex item boxes with _ | i
    · rfl
    · rcases bestFitBoxIndex_some_spec hs with ⟨h1, h2, _⟩
      have hmem : boxes.getD i default ∈ boxes := by
        rw [List.getD_eq_getElem boxes default h1]
        exact List.getElem_mem h1
      rw [hall _ hmem] at h2
      cases h2

/-! ### Phase 2: unfolding lemmas -/

theorem phase2_nil (sb : List BoxType) (packed : List PackedBox)
    (dropped : List Item) : phase2 sb packed dropped [] = (packed, dropped) := by
  rw [phase2]

theorem phase2_cons_existing {sb : List BoxType} {packed : List PackedBox}
    {dropped : List Item} {c : Item} {pend : List Item} {i : Nat}
    (h : bestFitBoxIndex c packed = some i) :
    phase2 sb packed dropped (c :: pend) =
      phase2 sb
        (packed.set i (fillBoxWithPending (addItemToBox (packed.getD i default) c) pend).1)
        dropped
        (fillBoxWithPending (addItemToBox (packed.getD i default) c) pend).2 := by
  rw [phase2]
  simp [h]

theorem phase2_cons_newbox {sb : List BoxType} {packed : List PackedBox}
    {dropped : List Item} {c : Item} {pend : List Item} {t : BoxType}
    (h1 : bestFitBoxIndex c packed = none) (h2 : newBoxCandidate c sb = some t) :
    phase2 sb packed dropped (c :: pend) =
      phase2 sb (packed ++ [(fillBoxWithPending (newBoxFor c t) pend).1])
        dropped (fillBoxWithPending (newBoxFor c t) pend).2 := by
  rw [phase2]
  simp [h1, h2, newBoxFor]

theorem phase2_cons_drop {sb : List BoxType} {packed : List PackedBox}
    {dropped : List Item} {c : Item} {pend : List Item}
    (h1 : bestFitBoxIndex c packed = none) (h2 : newBoxCandidate c sb = none) :
    phase2 sb packed dropped (c :: pend) =
      phase2 sb packed (dropped ++ [c]) pend := by
  rw [phase2]
  simp [h1, h2]

/-! ### Packed-box bookkeeping across a result list -/

@[simp] theorem packedItems_nil : packedItems [] = [] := rfl

@[simp] theorem packedItems_cons (b : PackedBox) (bs : List PackedBox) :
    packedItems (b :: bs) = b.items ++ packedItems bs := rfl

@[simp] theorem packedItems_append (l₁ l₂ : List PackedBox) :
    packedItems (l₁ ++ l₂) = packedItems l₁ ++ packedItems l₂ := by
  simp [packedItems]

theorem getD_mem {α : Type} (l : List α) (i : Nat) (d : α) (h : i < l.length) :
    l.getD i d ∈ l := by
  rw [List.getD_eq_getElem l d h]
  exact List.getElem_mem h

theorem mem_packedItems {b : PackedBox} {boxes : List PackedBox} {i : Item}
    (hb : b ∈ boxes) (hi : i ∈ b.items) : i ∈ packedItems boxes :=
  List.mem_flatMap.2 ⟨b, hb, hi⟩

theorem packedItems_set (l : List PackedBox) (i : Nat) (x : PackedBox)
    (h : i < l.length) :
    (packedItems (l.set i x) : Multiset Item) + ↑(l.getD i default).items =
      (packedItems l : Multiset Item) + ↑x.items := by
  have hdecomp : l = l.take i ++ l.getD i default :: l.drop (i + 1) := by
    conv_lhs => rw [← List.take_append_drop i l]
    rw [List.drop_eq_getElem_cons h, List.getD_eq_getElem l default h]
  rw [List.set_eq_take_cons_drop x h]
  conv_rhs => rw [hdecomp]
  simp only [packedItems, List.flatMap_append, List.flatMap_cons,
    ← Multiset.coe_add]
  abel

/-! ### The Phase 2 invariant -/

theorem phase2_spec (sb : List BoxType) (pool : List Item)
    (Hcat : ∀ t ∈ sb, t.length * t.width * t.height ≤ t.volume)
    (Hdim : ∀ i ∈ pool, 0 ≤ i.length ∧ 0 ≤ i.width ∧ 0 ≤ i.height)
    (Hw : ∀ i ∈ pool, 0 ≤ i.weight) :
    ∀ (n : Nat) (pending : List Item), pending.length ≤ n →
      ∀ (packed : List PackedBox) (dropped : List Item),
      (∀ b ∈ packed, goodBox sb pool b) →
      (∀ i ∈ pending, i ∈ pool) →
      (∀ b ∈ (phase2 sb packed dropped pending).1, goodBox sb pool b) ∧
      ((packedItems (phase2 sb packed dropped pending).1 : Multiset Item) +
          ↑(phase2 sb packed dropped pending).2 =
        (packedItems packed : Multiset Item) + ↑dropped + ↑pending) ∧
      (∀ i ∈ (phase2 sb packed dropped pending).2,
        i ∈ dropped ∨ ∀ t ∈ sb, newBoxFitsCheck i t = false) ∧
      (∀ i ∈ packedItems (phase2 sb packed dropped pending).1,
        i ∈ packedItems packed ∨ ∃ t ∈ sb, newBoxFitsCheck i t = true) := by
  intro n
  induction n with
  | zero =>
    intro pending hlen packed dropped hgood _
    have hnil : pending = [] := by
      cases pending with
      | nil => rfl
      | cons a l => simp at hlen
    subst hnil
    rw [phase2_nil]
    exact ⟨hgood, by simp, fun i hi => Or.inl hi, fun i hi => Or.inl hi⟩
  | succ n ihn =>
    intro pending hlen packed dropped hgood hpend
    cases pending with
    | nil =>
      rw [phase2_nil]
      exact ⟨hgood, by simp, fun i hi => Or.inl hi, fun i hi => Or.inl hi⟩
    | cons c pend =>
      have hc_pool : c ∈ pool := hpend c (List.mem_cons_self c pend)
      have hpend2 : ∀ i ∈ pend, i ∈ pool :=
        fun i hi => hpend i (List.mem_cons_of_mem c hi)
      have hlen2 : pend.length ≤ n := by
        simp only [List.length_cons] at hlen
        omega
      rcases hbf : bestFitBoxIndex c packed with _ | i
      · rcases hnb : newBoxCandidate c sb with _ | t
        · -- unpackable: the current item is dropped
          rw [phase2_cons_drop hbf hnb]
          obtain ⟨g1, g2, g3, g4⟩ :=
            ihn pend hlen2 packed (dropped ++ [c]) hgood hpend2
          refine ⟨g1, ?_, ?_, g4⟩
          · rw [g2]
            simp only [← Multiset.coe_add, ← Multiset.cons_coe,
              Multiset.coe_singleton, ← Multiset.singleton_add]
            abel
          · intro i hi
            rcases g3 i hi with hi2 | hfail
            · rcases List.mem_append.1 hi2 with hi3 | hi3
              · exact Or.inl hi3
              · have hic : i = c := List.mem_singleton.1 hi3
                subst hic
                refine Or.inr fun t ht => ?_
                have := List.find?_eq_none.1 hnb t ht
                simpa using this
            · exact Or.inr hfail
        · -- open a new box for the current item
          rw [phase2_cons_newbox hbf hnb]
          have ht_sb : t ∈ sb := List.mem_of_find?_eq_some hnb
          have ht_chk : newBoxFitsCheck c t = true := List.find?_some hnb
          have hnb_good : goodBox sb pool (newBoxFor c t) := by
            refine ⟨ht_sb, ?_, ?_, ?_⟩
            · intro j hj
              have : j = c := List.mem_singleton.1 hj
              subst this
              exact hc_pool
            · constructor <;> simp [newBoxFor]
            · constructor
              · exact vol_le_of_newBoxFitsCheck ht_chk (Hdim c hc_pool)
                  (Hcat t ht_sb)
              · exact ((newBoxFitsCheck_iff c t).1 ht_chk).2.2.2
          have hfb_good : goodBox sb pool (fillBoxWithPending (newBoxFor c t) pend).1 := by
            refine ⟨?_, ?_, ?_, ?_⟩
            · rw [fillBoxWithPending_type]
              exact hnb_good.1
            · intro j hj
              rcases fillBoxWithPending_items_src (newBoxFor c t) pend j hj with hj2 | hj2
              · exact hnb_good.2.1 j hj2
              · exact hpend2 j hj2
            · exact fillBoxWithPending_sums pend hnb_good.2.2.1
            · exact fillBoxWithPending_within pend hnb_good.2.2.2
          have hgood2 : ∀ b ∈ packed ++ [(fillBoxWithPending (newBoxFor c t) pend).1],
              goodBox sb pool b := by
            intro b hb
            rcases List.mem_append.1 hb with hb2 | hb2
            · exact hgood b hb2
            · have : b = (fillBoxWithPending (newBoxFor c t) pend).1 :=
                List.mem_singleton.1 hb2
              subst this
              exact hfb_good
          have hlen3 : (fillBoxWithPending (newBoxFor c t) pend).2.length ≤ n :=
            le_trans (fillBoxWithPending_pending_length _ _) hlen2
          have hpend3 : ∀ i ∈ (fillBoxWithPending (newBoxFor c t) pend).2, i ∈ pool :=
            fun i hi => hpend2 i (fillBoxWithPending_pending_sub _ _ i hi)
          obtain ⟨g1, g2, g3, g4⟩ :=
            ihn (fillBoxWithPending (newBoxFor c t) pend).2 hlen3
              (packed ++ [(fillBoxWithPending (newBoxFor c t) pend).1]) dropped
              hgood2 hpend3
          have hfillperm :
              ((fillBoxWithPending (newBoxFor c t) pend).1.items : Multiset Item) +
                ↑(fillBoxWithPending (newBoxFor c t) pend).2 =
                ({c} : Multiset Item) + ↑pend := by
            rw [fillBoxWithPending_perm (newBoxFor c t) pend]
            congr 1
          refine ⟨g1, ?_, ?_, ?_⟩
          · rw [g2]
            simp only [packedItems_append, packedItems_cons, packedItems_nil,
              List.append_nil, ← Multiset.coe_add, ← Multiset.cons_coe,
              ← Multiset.singleton_add]
            calc (packedItems packed : Multiset Item) +
                  ↑(fillBoxWithPending (newBoxFor c t) pend).1.items + ↑dropped +
                  ↑(fillBoxWithPending (newBoxFor c t) pend).2
                = (packedItems packed : Multiset Item) + ↑dropped +
                  (((fillBoxWithPending (newBoxFor c t) pend).1.items : Multiset Item) +
                    ↑(fillBoxWithPending (newBoxFor c t) pend).2) := by abel
              _ = (packedItems packed : Multiset Item) + ↑dropped +
                  (({c} : Multiset Item) + ↑pend) := by rw [hfillperm]
              _ = (packedItems packed : Multiset Item) + ↑dropped +
                  ({c} + ↑pend) := rfl
          · intro i hi
            rcases g3 i hi with hi2 | hfail
            · exact Or.inl hi2
            · exact Or.inr hfail
          · intro i hi
            rcases g4 i hi with hi2 | hex
            · rw [packedItems_append] at hi2
              rcases List.mem_append.1 hi2 with hi3 | hi3
              · exact Or.inl hi3
              · simp only [packedItems_cons, packedItems_nil, List.append_nil] at hi3
                have hweights : ∀ j ∈ (newBoxFor c t).items, 0 ≤ j.weight := by
                  intro j hj
                  have hjc : j = c := List.mem_singleton.1 hj
                  rw [hjc]
                  exact Hw c hc_pool
                rcases fillBoxWithPending_canHold pend hnb_good.2.2.1 hweights
                    (fun j hj => Hw j (hpend2 j hj)) i hi3 with hi4 | hi4
                · have : i = c := List.mem_singleton.1 hi4
                  subst this
                  exact Or.inr ⟨t, ht_sb, ht_chk⟩
                · exact Or.inr ⟨t, ht_sb, hi4⟩
            · exact Or.inr hex
      · -- place into the best-fitting existing box
        rw [phase2_cons_existing hbf]
        rcases bestFitBoxIndex_some_spec hbf with ⟨hilen, hifits, _⟩
        have htgt_mem : packed.getD i default ∈ packed := getD_mem packed i default hilen
        have htgt_good : goodBox sb pool (packed.getD i default) := hgood _ htgt_mem
        have htb_good : goodBox sb pool (addItemToBox (packed.getD i default) c) := by
          refine ⟨htgt_good.1, ?_, boxSumsOk_addItemToBox c htgt_good.2.2.1,
            boxWithinLimits_addItemToBox hifits⟩
          intro j hj
          simp only [addItemToBox, List.mem_append, List.mem_singleton] at hj
          rcases hj with hj | rfl
          · exact htgt_good.2.1 j hj
          · exact hc_pool
        have hfb_good :
            goodBox sb pool
              (fillBoxWithPending (addItemToBox (packed.getD i default) c) pend).1 := by
          refine ⟨?_, ?_, ?_, ?_⟩
          · rw [fillBoxWithPending_type]
            exact htb_good.1
          · intro j hj
            rcases fillBoxWithPending_items_src _ pend j hj with hj2 | hj2
            · exact htb_good.2.1 j hj2
            · exact hpend2 j hj2
          · exact fillBoxWithPending_sums pend htb_good.2.2.1
          · exact fillBoxWithPending_within pend htb_good.2.2.2
        have hgood2 : ∀ b ∈ packed.set i
            (fillBoxWithPending (addItemToBox (packed.getD i default) c) pend).1,
            goodBox sb pool b := by
          intro b hb
          rcases List.mem_or_eq_of_mem_set hb with hb2 | rfl
          · exact hgood b hb2
          · exact hfb_good
        have hlen3 :
            (fillBoxWithPending (addItemToBox (packed.getD i default) c) pend).2.length ≤ n :=
          le_trans (fillBoxWithPending_pending_length _ _) hlen2
        have hpend3 : ∀ j ∈
            (fillBoxWithPending (addItemToBox (packed.getD i default) c) pend).2,
            j ∈ pool :=
          fun j hj => hpend2 j (fillBoxWithPending_pending_sub _ _ j hj)
        obtain ⟨g1, g2, g3, g4⟩ :=
          ihn (fillBoxWithPending (addItemToBox (packed.getD i default) c) pend).2 hlen3
            (packed.set i
              (fillBoxWithPending (addItemToBox (packed.getD i default) c) pend).1)
            dropped hgood2 hpend3
        have hset := packedItems_set packed i
          (fillBoxWithPending (addItemToBox (packed.getD i default) c) pend).1 hilen
        have hfillperm :
            ((fillBoxWithPending (addItemToBox (packed.getD i default) c) pend).1.items :
                Multiset Item) +
              ↑(fillBoxWithPending (addItemToBox (packed.getD i default) c) pend).2 =
              ((packed.getD i default).items : Multiset Item) + {c} + ↑pend := by
          rw [fillBoxWithPending_perm]
          simp only [addItemToBox, ← Multiset.coe_add, Multiset.coe_singleton]
        refine ⟨g1, ?_, ?_, ?_⟩
        · rw [g2]
          simp only [← Multiset.cons_coe, ← Multiset.singleton_add]
          refine add_right_cancel
            (b := ((packed.getD i default).items : Multiset Item)) ?_
          calc (packedItems (packed.set i
                  (fillBoxWithPending (addItemToBox (packed.getD i default) c) pend).1) :
                  Multiset Item) + ↑dropped +
                ↑(fillBoxWithPending (addItemToBox (packed.getD i default) c) pend).2 +
                ↑(packed.getD i default).items
              = ((packedItems (packed.set i
                  (fillBoxWithPending (addItemToBox (packed.getD i default) c) pend).1) :
                  Multiset Item) + ↑(packed.getD i default).items) + ↑dropped +
                ↑(fillBoxWithPending (addItemToBox (packed.getD i default) c) pend).2 := by
                abel
            _ = ((packedItems packed : Multiset Item) +
                  ↑(fillBoxWithPending (addItemToBox (packed.getD i default) c) pend).1.items) +
                ↑dropped +
                ↑(fillBoxWithPending (addItemToBox (packed.getD i default) c) pend).2 := by
                rw [hset]
            _ = (packedItems packed : Multiset Item) + ↑dropped +
                (((fillBoxWithPending (addItemToBox (packed.getD i default) c) pend).1.items :
                    Multiset Item) +
                  ↑(fillBoxWithPending (addItemToBox (packed.getD i default) c) pend).2) := by
                abel
            _ = (packedItems packed : Multiset Item) + ↑dropped +
                (((packed.getD i default).items : Multiset Item) + {c} + ↑pend) := by
                rw [hfillperm]
            _ = (packedItems packed : Multiset Item) + ↑dropped + ({c} + ↑pend) +
                ↑(packed.getD i default).items := by
                abel
        · intro j hj
          rcases g3 j hj with hj2 | hfail
          · exact Or.inl hj2
          · exact Or.inr hfail
        · intro j hj
          rcases g4 j hj with hj2 | hex
          · rcases List.mem_flatMap.1 hj2 with ⟨b, hb, hjb⟩
            rcases List.mem_or_eq_of_mem_set hb with hb2 | rfl
            · exact Or.inl (mem_packedItems hb2 hjb)
            · have hweights : ∀ k ∈ (addItemToBox (packed.getD i default) c).items,
                  0 ≤ k.weight := by
                intro k hk
                simp only [addItemToBox, List.mem_append, List.mem_singleton] at hk
                rcases hk with hk | hk
                · exact Hw k (htgt_good.2.1 k hk)
                · rw [hk]
                  exact Hw c hc_pool
              rcases fillBoxWithPending_canHold pend htb_good.2.2.1 hweights
                  (fun k hk => Hw k (hpend2 k hk)) j hjb with hj4 | hj4
              · simp only [addItemToBox, List.mem_append, List.mem_singleton] at hj4
                rcases hj4 with hj4 | rfl
                · exact Or.inl (mem_packedItems htgt_mem hj4)
                · refine Or.inr ⟨(packed.getD i default).type, htgt_good.1, ?_⟩
                  exact boxFits_weight_le hifits htgt_good.2.2.1
                    (fun k hk => Hw k (htgt_good.2.1 k hk))
              · refine Or.inr ⟨(packed.getD i default).type, htgt_good.1, ?_⟩
                simpa using hj4
          · exact Or.inr hex

/-! ### Sorting facts -/

theorem sortBoxesAsc_perm (catalog : List BoxType) :
    (sortBoxesAsc catalog).Perm catalog :=
  List.perm_insertionSort boxVolLe catalog

theorem mem_sortBoxesAsc {t : BoxType} {catalog : List BoxType} :
    t ∈ sortBoxesAsc catalog ↔ t ∈ catalog :=
  (sortBoxesAsc_perm catalog).mem_iff

theorem sortBoxesAsc_sorted (catalog : List BoxType) :
    List.Sorted boxVolLe (sortBoxesAsc catalog) :=
  List.sorted_insertionSort boxVolLe catalog

theorem sortItemsDesc_perm (items : List Item) :
    (sortItemsDesc items).Perm items :=
  List.perm_insertionSort itemVolGe items

theorem mem_sortItemsDesc {i : Item} {items : List Item} :
    i ∈ sortItemsDesc items ↔ i ∈ items :=
  (sortItemsDesc_perm items).mem_iff

theorem sortItemsDesc_sorted (items : List Item) :
    List.Sorted itemVolGe (sortItemsDesc items) :=
  List.sorted_insertionSort itemVolGe items

/-! ### Phase 1 facts -/

theorem phase1_none {l : List Item} {boxes : List BoxType}
    (h : phase1 l boxes = none) : ∀ t ∈ boxes, phase1Fits t l = false := by
  induction boxes with
  | nil => intro t ht; simp at ht
  | cons c rest ih =>
    intro t ht
    rcases hr : phase1Run c 0 0 l with _ | p
    · simp only [phase1, hr] at h
      rcases List.mem_cons.1 ht with rfl | ht
      · simp [phase1Fits, hr]
      · exact ih h t ht
    · simp [phase1, hr] at h

theorem phase1_some {l : List Item} {boxes : List BoxType} {b : PackedBox}
    (h : phase1 l boxes = some b) :
    b.items = l ∧ b.filledVolume = itemsVolume l ∧ b.totalWeight = itemsWeight l ∧
      b.type ∈ boxes ∧ phase1Fits b.type l = true ∧
      (l ≠ [] → boxWithinLimits b) := by
  induction boxes with
  | nil => simp [phase1] at h
  | cons c rest ih =>
    rcases hr : phase1Run c 0 0 l with _ | p
    · simp only [phase1, hr] at h
      obtain ⟨h1, h2, h3, h4, h5, h6⟩ := ih h
      exact ⟨h1, h2, h3, List.mem_cons_of_mem c h4, h5, h6⟩
    · simp only [phase1, hr, Option.some.injEq] at h
      subst h
      have hp := phase1Run_some_eq hr
      refine ⟨rfl, ?_, ?_, List.mem_cons_self c rest, by simp [phase1Fits, hr], ?_⟩
      · simp [hp]
      · simp [hp]
      · intro hne
        have := phase1Run_some_within hne hr
        exact this

theorem phase1_min {l : List Item} {boxes : List BoxType} {b : PackedBox}
    (hsort : List.Sorted boxVolLe boxes) (h : phase1 l boxes = some b) :
    ∀ t ∈ boxes, phase1Fits t l = true → b.type.volume ≤ t.volume := by
  induction boxes with
  | nil => simp [phase1] at h
  | cons c rest ih =>
    intro t ht htfits
    rcases hr : phase1Run c 0 0 l with _ | p
    · simp only [phase1, hr] at h
      rcases List.mem_cons.1 ht with rfl | ht
      · simp [phase1Fits, hr] at htfits
      · exact ih (List.sorted_cons.1 hsort).2 h t ht htfits
    · simp only [phase1, hr, Option.some.injEq] at h
      subst h
      rcases List.mem_cons.1 ht with rfl | ht
      · exact le_refl _
      · exact (List.sorted_cons.1 hsort).1 t ht

/-! ### The combined packing-engine specification -/

theorem packOptimalFull_empty {catalog : List BoxType} :
    packOptimalFull [] catalog = ([], []) := by
  simp [packOptimalFull]

theorem packOptimalFull_phase1 {items : List Item} {catalog : List BoxType}
    {b : PackedBox} (hne : items ≠ [])
    (h : phase1 (sortItemsDesc items) (sortBoxesAsc catalog) = some b) :
    packOptimalFull items catalog = ([b], []) := by
  simp [packOptimalFull, hne, h]

theorem packOptimalFull_phase2 {items : List Item} {catalog : List BoxType}
    (hne : items ≠ [])
    (h : phase1 (sortItemsDesc items) (sortBoxesAsc catalog) = none) :
    packOptimalFull items catalog =
      phase2 (sortBoxesAsc catalog) [] [] (sortItemsDesc items) := by
  simp [packOptimalFull, hne, h]

theorem packOptimal_spec (items : List Item) (catalog : List BoxType)
    (Hcat : ∀ t ∈ catalog, t.length * t.width * t.height ≤ t.volume)
    (Hdim : ∀ i ∈ items, 0 ≤ i.length ∧ 0 ≤ i.width ∧ 0 ≤ i.height)
    (Hw : ∀ i ∈ items, 0 ≤ i.weight) :
    (∀ b ∈ packOptimal items catalog, goodBox catalog items b) ∧
    ((packedItems (packOptimal items catalog) : Multiset Item) +
      ↑(unpackableItems items catalog) = ↑items) ∧
    (∀ i ∈ unpackableItems items catalog,
      ∀ t ∈ catalog, newBoxFitsCheck i t = false) ∧
    (∀ i ∈ packedItems (packOptimal items catalog),
      ∃ t ∈ catalog, newBoxFitsCheck i t = true) := by
  rcases List.eq_nil_or_concat items with rfl | ⟨l0, x0, hne0⟩
  · rw [packOptimal, unpackableItems, packOptimalFull_empty]
    refine ⟨?_, by simp, ?_, ?_⟩ <;> intro b hb <;> simp at hb
  · have hne : items ≠ [] := by simp [hne0]
    have hsortne : sortItemsDesc items ≠ [] := by
      intro hcon
      have := sortItemsDesc_perm items
      rw [hcon] at this
      exact hne this.nil_eq.symm
    rcases hph : phase1 (sortItemsDesc items) (sortBoxesAsc catalog) with _ | b
    · -- phase 2
      rw [packOptimal, unpackableItems, packOptimalFull_phase2 hne hph]
      have Hcat2 : ∀ t ∈ sortBoxesAsc catalog,
          t.length * t.width * t.height ≤ t.volume :=
        fun t ht => Hcat t (mem_sortBoxesAsc.1 ht)
      obtain ⟨g1, g2, g3, g4⟩ :=
        phase2_spec (sortBoxesAsc catalog) items Hcat2 Hdim Hw
          (sortItemsDesc items).length (sortItemsDesc items) (le_refl _) [] []
          (by intro b hb; simp at hb)
          (fun i hi => mem_sortItemsDesc.1 hi)
      refine ⟨?_, ?_, ?_, ?_⟩
      · intro b hb
        obtain ⟨hb1, hb2, hb3, hb4⟩ := g1 b hb
        exact ⟨mem_sortBoxesAsc.1 hb1, hb2, hb3, hb4⟩
      · rw [g2]
        simp only [packedItems_nil, Multiset.coe_nil, zero_add, add_zero]
        exact Multiset.coe_eq_coe.2 (sortItemsDesc_perm items)
      · intro i hi
        rcases g3 i hi with hi2 | hfail
        · simp at hi2
        · intro t ht
          exact hfail t (mem_sortBoxesAsc.2 ht)
      · intro i hi
        rcases g4 i hi with hi2 | ⟨t, ht, hchk⟩
        · simp at hi2
        · exact ⟨t, mem_sortBoxesAsc.1 ht, hchk⟩
    · -- phase 1
      rw [packOptimal, unpackableItems, packOptimalFull_phase1 hne hph]
      obtain ⟨h1, h2, h3, h4, h5, h6⟩ := phase1_some hph
      have hfits := h5
      rw [phase1Fits] at hfits
      rcases hrun : phase1Run b.type 0 0 (sortItemsDesc items) with _ | p
      · rw [hrun] at hfits; simp at hfits
      refine ⟨?_, ?_, ?_, ?_⟩
      · intro b2 hb2
        have hb2b : b2 = b := List.mem_singleton.1 hb2
        subst hb2b
        refine ⟨mem_sortBoxesAsc.1 h4, ?_, ⟨h2.trans ?_, h3.trans ?_⟩, h6 hsortne⟩
        · intro j hj
          rw [h1] at hj
          exact mem_sortItemsDesc.1 hj
        · rw [h1]
        · rw [h1]
      · simp only [packedItems_cons, packedItems_nil, List.append_nil,
          Multiset.coe_nil, add_zero, h1]
        exact Multiset.coe_eq_coe.2 (sortItemsDesc_perm items)
      · intro i hi; simp at hi
      · intro i hi
        simp only [packedItems_cons, packedItems_nil, List.append_nil, h1] at hi
        have := phase1Run_some_canHold (le_refl 0)
          (fun j hj => Hw j (mem_sortItemsDesc.1 hj)) hrun i hi
        exact ⟨b.type, mem_sortBoxesAsc.1 h4, this⟩

/-! ### Consolidation simulator facts -/

theorem tryAddAux_spec (item : Item) (P : List PackedBox → Prop)
    (hstep : ∀ bs i, P bs → bestFitBoxIndex item bs = some i →
      P (bs.set i (addItemToBox (bs.getD i default) item))) :
    ∀ (q : Nat) (boxes : List PackedBox) (added : Nat), P boxes →
      ∃ k, k ≤ q ∧ (tryAddAux item q boxes added).1 = added + k ∧
        (tryAddAux item q boxes added).2 = placeUnits item k boxes ∧
        P (tryAddAux item q boxes added).2 ∧
        (tryAddAux item q boxes added).2.length = boxes.length ∧
        (k = q ∨ bestFitBoxIndex item (tryAddAux item q boxes added).2 = none) := by
  intro q
  induction q with
  | zero =>
    intro boxes added hP
    exact ⟨0, le_refl 0, by simp [tryAddAux], by simp [tryAddAux, placeUnits], by
      simpa [tryAddAux] using hP, by simp [tryAddAux], Or.inl rfl⟩
  | succ q ih =>
    intro boxes added hP
    rcases hb : bestFitBoxIndex item boxes with _ | i
    · refine ⟨0, Nat.zero_le _, ?_, ?_, ?_, ?_, Or.inr ?_⟩
      · simp [tryAddAux, hb]
      · simp [tryAddAux, hb, placeUnits]
      · simpa [tryAddAux, hb] using hP
      · simp [tryAddAux, hb]
      · simp [tryAddAux, hb]
    · have hP2 := hstep boxes i hP hb
      obtain ⟨k, hk, h1, h2, h3, h4, h5⟩ :=
        ih (boxes.set i (addItemToBox (boxes.getD i default) item)) (added + 1) hP2
      refine ⟨k + 1, Nat.succ_le_succ hk, ?_, ?_, ?_, ?_, ?_⟩
      · simp only [tryAddAux, hb]
        omega
      · simp only [tryAddAux, hb, h2, placeUnits, placeOne]
      · simpa [tryAddAux, hb] using h3
      · simp only [tryAddAux, hb]
        rw [h4, List.length_set]
      · rcases h5 with h5 | h5
        · exact Or.inl (by omega)
        · exact Or.inr (by simpa [tryAddAux, hb] using h5)

theorem tryAdd_spec (item : Item) (q : Nat) (boxes : List PackedBox)
    (P : List PackedBox → Prop)
    (hstep : ∀ bs i, P bs → bestFitBoxIndex item bs = some i →
      P (bs.set i (addItemToBox (bs.getD i default) item)))
    (hP : P boxes) :
    ∃ k, k ≤ q ∧ (tryAddItemsToExistingBoxes item q boxes).quantityAdded = k ∧
      (tryAddItemsToExistingBoxes item q boxes).newPackedBoxes =
        placeUnits item k boxes ∧
      P (tryAddItemsToExistingBoxes item q boxes).newPackedBoxes ∧
      (tryAddItemsToExistingBoxes item q boxes).newPackedBoxes.length =
        boxes.length ∧
      (k = q ∨ bestFitBoxIndex item
        (tryAddItemsToExistingBoxes item q boxes).newPackedBoxes = none) := by
  obtain ⟨k, hk, h1, h2, h3, h4, h5⟩ := tryAddAux_spec item P hstep q boxes 0 hP
  exact ⟨k, hk, by simpa [tryAddItemsToExistingBoxes] using h1,
    by simpa [tryAddItemsToExistingBoxes] using h2,
    by simpa [tryAddItemsToExistingBoxes] using h3,
    by simpa [tryAddItemsToExistingBoxes] using h4,
    by simpa [tryAddItemsToExistingBoxes] using h5⟩

/-- The simulator preserves the running-total invariants of every box: each
placement is gated by the fit predicate. -/
theorem tryAdd_sums_within {item : Item} {q : Nat} {boxes : List PackedBox}
    (h : ∀ b ∈ boxes, boxSumsOk b ∧ boxWithinLimits b) :
    ∀ b ∈ (tryAddItemsToExistingBoxes item q boxes).newPackedBoxes,
      boxSumsOk b ∧ boxWithinLimits b := by
  obtain ⟨k, _, _, _, hP, _, _⟩ :=
    tryAdd_spec item q boxes (fun bs => ∀ b ∈ bs, boxSumsOk b ∧ boxWithinLimits b)
      (fun bs i hbs hfit => by
        intro b hb
        rcases List.mem_or_eq_of_mem_set hb with hb2 | rfl
        · exact hbs b hb2
        · rcases bestFitBoxIndex_some_spec hfit with ⟨hlen, hfits, _⟩
          have hold := hbs _ (getD_mem bs i default hlen)
          exact ⟨boxSumsOk_addItemToBox item hold.1,
            boxWithinLimits_addItemToBox hfits⟩) h
  exact hP

/-- The simulator also preserves positivity of type volume and nonnegativity
of filled volume (used to rule out the -1 sentinel). -/
theorem tryAdd_pos {item : Item} {q : Nat} {boxes : List PackedBox}
    (hv : 0 ≤ getItemVolume item)
    (hpos : ∀ b ∈ boxes, 0 < b.type.volume ∧ 0 ≤ b.filledVolume) :
    ∃ k, k ≤ q ∧ (tryAddItemsToExistingBoxes item q boxes).quantityAdded = k ∧
      (tryAddItemsToExistingBoxes item q boxes).newPackedBoxes =
        placeUnits item k boxes ∧
      (∀ b ∈ (tryAddItemsToExistingBoxes item q boxes).newPackedBoxes,
        0 < b.type.volume ∧ 0 ≤ b.filledVolume) ∧
      (tryAddItemsToExistingBoxes item q boxes).newPackedBoxes.length =
        boxes.length ∧
      (k = q ∨ bestFitBoxIndex item
        (tryAddItemsToExistingBoxes item q boxes).newPackedBoxes = none) :=
  tryAdd_spec item q boxes
    (fun bs => ∀ b ∈ bs, 0 < b.type.volume ∧ 0 ≤ b.filledVolume)
    (fun bs i hbs hfit => by
      intro b hb
      rcases List.mem_or_eq_of_mem_set hb with hb2 | rfl
      · exact hbs b hb2
      · rcases bestFitBoxIndex_some_spec hfit with ⟨hlen, _, _⟩
        have hold := hbs _ (getD_mem bs i default hlen)
        refine ⟨hold.1, ?_⟩
        simp only [addItemToBox]
        linarith [hold.2]) hpos

theorem tryAdd_qa_zero_iff {item : Item} {q : Nat} {boxes : List PackedBox}
    (hq : 1 ≤ q) :
    (tryAddItemsToExistingBoxes item q boxes).quantityAdded = 0 ↔
      bestFitBoxIndex item boxes = none := by
  rcases q with _ | q'
  · omega
  · rcases hb : bestFitBoxIndex item boxes with _ | i
    · simp [tryAddItemsToExistingBoxes, tryAddAux, hb]
    · obtain ⟨k, _, h1, _, _, _, _⟩ := tryAddAux_spec item (fun _ => True)
        (fun _ _ _ _ => trivial) q'
        (boxes.set i (addItemToBox (boxes.getD i default) item)) 1 trivial
      simp only [tryAddItemsToExistingBoxes, tryAddAux, hb]
      rw [h1]
      constructor
      · intro hcon; omega
      · intro hcon
        exact Option.noConfusion hcon

/-! ### Metrics lemmas -/

theorem foldl_add_eq {α : Type} (g : ℚ → α → ℚ) (f : α → ℚ)
    (hg : ∀ s a, g s a = s + f a) :
    ∀ (l : List α) (c : ℚ), l.foldl g c = c + (l.map f).sum := by
  intro l
  induction l with
  | nil => intro c; simp
  | cons a rest ih =>
    intro c
    simp only [List.foldl_cons, List.map_cons, List.sum_cons, hg]
    rw [ih (c + f a)]
    ring

theorem totalPackedVolume_eq (l : List PackedBox) :
    totalPackedVolume l = (l.map PackedBox.filledVolume).sum := by
  have := foldl_add_eq (fun s b => s + b.filledVolume) PackedBox.filledVolume
    (fun _ _ => rfl) l 0
  simpa [totalPackedVolume] using this

theorem totalBoxesVolume_eq (l : List PackedBox) :
    totalBoxesVolume l = (l.map (fun b => b.type.volume)).sum := by
  have := foldl_add_eq (fun s b => s + b.type.volume) (fun b => b.type.volume)
    (fun _ _ => rfl) l 0
  simpa [totalBoxesVolume] using this

theorem optimalCO2Impact_eq (l : List PackedBox) :
    optimalCO2Impact l =
      (l.map (fun b => b.type.baseCO2 + b.totalWeight * b.type.perKgCO2)).sum := by
  have := foldl_add_eq
    (fun s b => s + b.type.baseCO2 + b.totalWeight * b.type.perKgCO2)
    (fun b => b.type.baseCO2 + b.totalWeight * b.type.perKgCO2)
    (fun s b => by ring) l 0
  simpa [optimalCO2Impact] using this

theorem individualShipmentCO2_eq (l : List Item) :
    individualShipmentCO2 l =
      (l.map (fun item =>
        match suitableBoxFor item with
        | some box => box.baseCO2 + item.weight * box.perKgCO2
        | none => 0)).sum := by
  have := foldl_add_eq
    (fun s item =>
      match suitableBoxFor item with
      | some box => s + box.baseCO2 + item.weight * box.perKgCO2
      | none => s)
    (fun item =>
      match suitableBoxFor item with
      | some box => box.baseCO2 + item.weight * box.perKgCO2
      | none => 0)
    (fun s item => by
      rcases h : suitableBoxFor item with _ | box
      · simp only [h]
        ring
      · simp only [h]
        ring) l 0
  simpa [individualShipmentCO2] using this

theorem totalBoxesVolume_pos {l : List PackedBox} (hne : l ≠ [])
    (h : ∀ b ∈ l, 0 < b.type.volume) : 0 < totalBoxesVolume l := by
  rw [totalBoxesVolume_eq]
  refine List.sum_pos _ ?_ (by simpa using hne)
  intro x hx
  rcases List.mem_map.1 hx with ⟨b, hb, rfl⟩
  exact h b hb

theorem totalPackedVolume_nonneg {l : List PackedBox}
    (h : ∀ b ∈ l, 0 ≤ b.filledVolume) : 0 ≤ totalPackedVolume l := by
  rw [totalPackedVolume_eq]
  refine List.sum_nonneg ?_
  intro x hx
  rcases List.mem_map.1 hx with ⟨b, hb, rfl⟩
  exact h b hb

theorem totalPackedVolume_le {l : List PackedBox}
    (h : ∀ b ∈ l, b.filledVolume ≤ b.type.volume) :
    totalPackedVolume l ≤ totalBoxesVolume l := by
  rw [totalPackedVolume_eq, totalBoxesVolume_eq]
  exact List.sum_le_sum fun b hb => h b hb

/-! ### The per-item smallest-box lookup -/

theorem find?_sorted_min {l : List BoxType} {p : BoxType → Bool} {b : BoxType}
    (hsort : List.Sorted boxVolLe l) (h : l.find? p = some b) :
    ∀ t ∈ l, p t = true → b.volume ≤ t.volume := by
  induction l with
  | nil => simp at h
  | cons c rest ih =>
    intro t ht htp
    rcases hc : p c with _ | _
    · rw [List.find?_cons_of_neg rest (by simp [hc])] at h
      rcases List.mem_cons.1 ht with rfl | ht
      · rw [htp] at hc; cases hc
      · exact ih (List.sorted_cons.1 hsort).2 h t ht htp
    · rw [List.find?_cons_of_pos rest hc] at h
      have hbc : b = c := by simpa using h.symm
      subst hbc
      rcases List.mem_cons.1 ht with rfl | ht
      · exact le_refl _
      · exact (List.sorted_cons.1 hsort).1 t ht

theorem suitableBoxFor_some_spec {item : Item} {b : BoxType}
    (h : suitableBoxFor item = some b) :
    b ∈ AMAZON_BOX_SIZES ∧ suitableBoxCheck item b = true ∧
      ∀ t ∈ AMAZON_BOX_SIZES, suitableBoxCheck item t = true →
        b.volume ≤ t.volume := by
  refine ⟨mem_sortBoxesAsc.1 (List.mem_of_find?_eq_some h), List.find?_some h, ?_⟩
  intro t ht htp
  exact find?_sorted_min (sortBoxesAsc_sorted AMAZON_BOX_SIZES) h t
    (mem_sortBoxesAsc.2 ht) htp

theorem suitableBoxFor_none_spec {item : Item}
    (h : suitableBoxFor item = none) :
    ∀ t ∈ AMAZON_BOX_SIZES, suitableBoxCheck item t = false := by
  intro t ht
  have := List.find?_eq_none.1 h t (mem_sortBoxesAsc.2 ht)
  simpa using this

/-! ### Order-independence of the Phase 1 sequential test -/

theorem phase1Run_isSome_iff {box : BoxType} {l : List Item} :
    ∀ {fv tw : ℚ}, 0 ≤ fv → fv ≤ box.volume → 0 ≤ tw → tw ≤ box.maxWeight →
      (∀ i ∈ l, 0 < i.length ∧ 0 < i.width ∧ 0 < i.height ∧ 0 < i.weight) →
      ((phase1Run box fv tw l).isSome = true ↔
        ((∀ i ∈ l, i.length ≤ box.length ∧ i.width ≤ box.width ∧
            i.height ≤ box.height) ∧
          fv + itemsVolume l ≤ box.volume ∧
          tw + itemsWeight l ≤ box.maxWeight)) := by
  induction l with
  | nil =>
    intro fv tw _ hfvle _ htwle _
    simp only [phase1Run, Option.isSome_some, itemsVolume_nil, itemsWeight_nil,
      add_zero]
    constructor
    · intro _
      exact ⟨fun i hi => absurd hi (List.not_mem_nil i), hfvle, htwle⟩
    · intro _; trivial
  | cons i rest ih =>
    intro fv tw hfv0 hfvle htw0 htwle hpos
    have hip := hpos i (List.mem_cons_self i rest)
    have hposr : ∀ j ∈ rest, 0 < j.length ∧ 0 < j.width ∧ 0 < j.height ∧
        0 < j.weight := fun j hj => hpos j (List.mem_cons_of_mem i hj)
    have hvolr : 0 ≤ itemsVolume rest :=
      itemsVolume_nonneg fun j hj => le_of_lt
        (mul_pos (mul_pos (hposr j hj).1 (hposr j hj).2.1) (hposr j hj).2.2.1)
    have hwtr : 0 ≤ itemsWeight rest :=
      itemsWeight_nonneg fun j hj => le_of_lt (hposr j hj).2.2.2
    have hiv : 0 < getItemVolume i :=
      mul_pos (mul_pos hip.1 hip.2.1) hip.2.2.1
    by_cases hf : doesItemFit i box fv tw
    · rcases (doesItemFit_iff i box fv tw).1 hf with ⟨h1, h2, h3, h4, h5⟩
      have hrec := @ih (fv + getItemVolume i) (tw + i.weight)
        (by linarith) h4 (by linarith [hip.2.2.2]) h5 hposr
      simp only [phase1Run, hf, if_true]
      rw [hrec]
      constructor
      · rintro ⟨haxis, hvol, hwt⟩
        refine ⟨?_, ?_, ?_⟩
        · intro j hj
          rcases List.mem_cons.1 hj with rfl | hj
          · exact ⟨h1, h2, h3⟩
          · exact haxis j hj
        · simp only [itemsVolume_cons]; linarith
        · simp only [itemsWeight_cons]; linarith
      · rintro ⟨haxis, hvol, hwt⟩
        simp only [itemsVolume_cons] at hvol
        simp only [itemsWeight_cons] at hwt
        exact ⟨fun j hj => haxis j (List.mem_cons_of_mem i hj),
          by linarith, by linarith⟩
    · simp only [phase1Run, hf, if_false, Option.isSome_none]
      constructor
      · intro hcon; cases hcon
      · rintro ⟨haxis, hvol, hwt⟩
        simp only [itemsVolume_cons] at hvol
        simp only [itemsWeight_cons] at hwt
        have hax := haxis i (List.mem_cons_self i rest)
        exact absurd ((doesItemFit_iff i box fv tw).2
          ⟨hax.1, hax.2.1, hax.2.2, by linarith, by linarith⟩) hf

/-! ### Claim theorems -/

/-- C1: for all container catalogs (with the data-model invariant that the
declared volume dominates the dimensions) and all item lists (nonnegative
dimensions and weights), every PackedContainer in the Packing Engine's result
and in the containers returned by the Consolidation Simulator run on that
result has filled-volume equal to the sum of its items' volumes, total-weight
equal to the sum of their weights, filled-volume at most the container
volume, and total-weight at most the container maximum weight. -/
theorem claim_c1_invariants (items : List Item) (catalog : List BoxType)
    (item : Item) (q : Nat)
    (Hcat : ∀ t ∈ catalog, t.length * t.width * t.height ≤ t.volume)
    (Hdim : ∀ i ∈ items, 0 ≤ i.length ∧ 0 ≤ i.width ∧ 0 ≤ i.height)
    (Hw : ∀ i ∈ items, 0 ≤ i.weight) :
    (∀ b ∈ packOptimal items catalog,
      b.filledVolume = itemsVolume b.items ∧
      b.totalWeight = itemsWeight b.items ∧
      b.filledVolume ≤ b.type.volume ∧ b.totalWeight ≤ b.type.maxWeight) ∧
    (∀ b ∈ (tryAddItemsToExistingBoxes item q
        (packOptimal items catalog)).newPackedBoxes,
      b.filledVolume = itemsVolume b.items ∧
      b.totalWeight = itemsWeight b.items ∧
      b.filledVolume ≤ b.type.volume ∧ b.totalWeight ≤ b.type.maxWeight) := by
  obtain ⟨hgood, _, _, _⟩ := packOptimal_spec items catalog Hcat Hdim Hw
  constructor
  · intro b hb
    obtain ⟨_, _, hs, hw⟩ := hgood b hb
    exact ⟨hs.1, hs.2, hw.1, hw.2⟩
  · intro b hb
    have := tryAdd_sums_within
      (fun b2 hb2 => ⟨(hgood b2 hb2).2.2.1, (hgood b2 hb2).2.2.2⟩) b hb
    exact ⟨this.1.1, this.1.2, this.2.1, this.2.2⟩

/-- Witness for C1 at the spec's own example: a book and a mug packed from
the Amazon catalog, then three more mugs folded in by the simulator. -/
theorem claim_c1_witness :
    ((∀ t ∈ AMAZON_BOX_SIZES, t.length * t.width * t.height ≤ t.volume) ∧
      (∀ i ∈ [book, mug], 0 ≤ i.length ∧ 0 ≤ i.width ∧ 0 ≤ i.height) ∧
      (∀ i ∈ [book, mug], 0 ≤ i.weight)) ∧
    ((∀ b ∈ packOptimal [book, mug] AMAZON_BOX_SIZES,
      b.filledVolume = itemsVolume b.items ∧
      b.totalWeight = itemsWeight b.items ∧
      b.filledVolume ≤ b.type.volume ∧ b.totalWeight ≤ b.type.maxWeight) ∧
    (∀ b ∈ (tryAddItemsToExistingBoxes mug 3
        (packOptimal [book, mug] AMAZON_BOX_SIZES)).newPackedBoxes,
      b.filledVolume = itemsVolume b.items ∧
      b.totalWeight = itemsWeight b.items ∧
      b.filledVolume ≤ b.type.volume ∧ b.totalWeight ≤ b.type.maxWeight)) := by
  refine ⟨⟨?_, ?_, ?_⟩, ?_⟩
  · intro t ht
    fin_cases ht <;> norm_num [AMAZON_BOX_SIZES]
  · intro i hi
    fin_cases hi <;> norm_num [book, mug]
  · intro i hi
    fin_cases hi <;> norm_num [book, mug]
  · exact claim_c1_invariants [book, mug] AMAZON_BOX_SIZES mug 3
      (by intro t ht; fin_cases ht <;> norm_num [AMAZON_BOX_SIZES])
      (by intro i hi; fin_cases hi <;> norm_num [book, mug])
      (by intro i hi; fin_cases hi <;> norm_num [book, mug])

/-- C2: for every non-empty item list all of whose items together pass the
Phase 1 sequential test for at least one catalog container type, the Packing
Engine returns exactly one PackedContainer; its type is the smallest-volume
catalog type in which all items fit, and it holds every input item in
descending-volume order. -/
theorem claim_c2_single_box (items : List Item) (catalog : List BoxType)
    (hne : items ≠ [])
    (hfit : ∃ t ∈ catalog, phase1Fits t (sortItemsDesc items) = true) :
    ∃ b, packOptimal items catalog = [b] ∧
      b.items.Perm items ∧
      List.Sorted itemVolGe b.items ∧
      b.type ∈ catalog ∧ phase1Fits b.type (sortItemsDesc items) = true ∧
      (∀ t ∈ catalog, phase1Fits t (sortItemsDesc items) = true →
        b.type.volume ≤ t.volume) := by
  rcases hph : phase1 (sortItemsDesc items) (sortBoxesAsc catalog) with _ | b
  · exfalso
    obtain ⟨t, ht, htf⟩ := hfit
    have := phase1_none hph t (mem_sortBoxesAsc.2 ht)
    rw [htf] at this
    cases this
  · obtain ⟨h1, _, _, h4, h5, _⟩ := phase1_some hph
    refine ⟨b, ?_, ?_, ?_, mem_sortBoxesAsc.1 h4, h5, ?_⟩
    · rw [packOptimal, packOptimalFull_phase1 hne hph]
    · rw [h1]
      exact sortItemsDesc_perm items
    · rw [h1]
      exact sortItemsDesc_sorted items
    · intro t ht htf
      exact phase1_min (sortBoxesAsc_sorted catalog) hph t
        (mem_sortBoxesAsc.2 ht) htf

/-- Witness for C2: the spec's example order of one book and one mug is
packed into exactly one Small box. -/
theorem claim_c2_witness :
    ([book, mug] ≠ [] ∧
      (∃ t ∈ AMAZON_BOX_SIZES,
        phase1Fits t (sortItemsDesc [book, mug]) = true)) ∧
    (∃ b, packOptimal [book, mug] AMAZON_BOX_SIZES = [b] ∧
      b.items.Perm [book, mug] ∧
      List.Sorted itemVolGe b.items ∧
      b.type ∈ AMAZON_BOX_SIZES ∧
      phase1Fits b.type (sortItemsDesc [book, mug]) = true ∧
      (∀ t ∈ AMAZON_BOX_SIZES,
        phase1Fits t (sortItemsDesc [book, mug]) = true →
        b.type.volume ≤ t.volume)) := by
  have hsort : sortItemsDesc [book, mug] = [book, mug] := by
    norm_num [sortItemsDesc, List.insertionSort, List.orderedInsert, itemVolGe,
      getItemVolume, book, mug]
  have hmem : smallBox ∈ AMAZON_BOX_SIZES := by
    unfold AMAZON_BOX_SIZES smallBox
    exact List.mem_cons_self _ _
  have hfits : phase1Fits smallBox (sortItemsDesc [book, mug]) = true := by
    rw [hsort]
    norm_num [phase1Fits, phase1Run, doesItemFit, getItemVolume, smallBox,
      book, mug]
  refine ⟨⟨List.cons_ne_nil book [mug], ⟨smallBox, hmem, hfits⟩⟩, ?_⟩
  exact claim_c2_single_box [book, mug] AMAZON_BOX_SIZES
    (List.cons_ne_nil book [mug]) ⟨smallBox, hmem, hfits⟩

/-- C3: an input item is absent from the Packing Engine's result exactly when
no catalog container type can ever hold it alone (the axis or weight check of
the new-box lookup fails for every type); every other input item appears
exactly once across the returned containers, and the unpackable ones are
exactly the reported (console.warn) items collected in the second component
of packOptimalFull. -/
theorem claim_c3_unpackable (items : List Item) (catalog : List BoxType)
    (Hcat : ∀ t ∈ catalog, t.length * t.width * t.height ≤ t.volume)
    (Hdim : ∀ i ∈ items, 0 ≤ i.length ∧ 0 ≤ i.width ∧ 0 ≤ i.height)
    (Hw : ∀ i ∈ items, 0 ≤ i.weight) :
    (packedItems (packOptimal items catalog)).Perm
      (items.filter (fun i => catalog.any (fun t => newBoxFitsCheck i t))) ∧
    (unpackableItems items catalog).Perm
      (items.filter (fun i => !(catalog.any (fun t => newBoxFitsCheck i t)))) := by
  obtain ⟨_, g2, g3, g4⟩ := packOptimal_spec items catalog Hcat Hdim Hw
  have hperm : (packedItems (packOptimal items catalog) ++
      unpackableItems items catalog).Perm items := by
    rw [← Multiset.coe_eq_coe, ← Multiset.coe_add]
    exact g2
  have hP : ∀ i ∈ packedItems (packOptimal items catalog),
      (catalog.any fun t => newBoxFitsCheck i t) = true := by
    intro i hi
    obtain ⟨t, ht, hchk⟩ := g4 i hi
    exact List.any_eq_true.2 ⟨t, ht, hchk⟩
  have hQ : ∀ i ∈ unpackableItems items catalog,
      (catalog.any fun t => newBoxFitsCheck i t) = false := by
    intro i hi
    rw [Bool.eq_false_iff]
    intro hcon
    obtain ⟨t, ht, hchk⟩ := List.any_eq_true.1 hcon
    rw [g3 i hi t ht] at hchk
    cases hchk
  constructor
  · have : packedItems (packOptimal items catalog) =
        (packedItems (packOptimal items catalog) ++
          unpackableItems items catalog).filter
            (fun i => catalog.any fun t => newBoxFitsCheck i t) := by
      rw [List.filter_append, List.filter_eq_self.2 hP,
        List.filter_eq_nil_iff.2 (fun a ha => by simp [hQ a ha]), List.append_nil]
    rw [this]
    exact hperm.filter _
  · have : unpackableItems items catalog =
        (packedItems (packOptimal items catalog) ++
          unpackableItems items catalog).filter
            (fun i => !(catalog.any fun t => newBoxFitsCheck i t)) := by
      rw [List.filter_append,
        List.filter_eq_nil_iff.2 (fun a ha => by simp [hP a ha]),
        List.filter_eq_self.2 (fun a ha => by simp [hQ a ha]),
        List.nil_append]
    rw [this]
    exact hperm.filter _

/-- Witness for C3: the spec's 30 kg item is reported as unpackable while the
book is packed. -/
theorem claim_c3_witness :
    ((∀ t ∈ AMAZON_BOX_SIZES, t.length * t.width * t.height ≤ t.volume) ∧
      (∀ i ∈ [book, heavyItem], 0 ≤ i.length ∧ 0 ≤ i.width ∧ 0 ≤ i.height) ∧
      (∀ i ∈ [book, heavyItem], 0 ≤ i.weight)) ∧
    ((packedItems (packOptimal [book, heavyItem] AMAZON_BOX_SIZES)).Perm
      ([book, heavyItem].filter
        (fun i => AMAZON_BOX_SIZES.any (fun t => newBoxFitsCheck i t))) ∧
    (unpackableItems [book, heavyItem] AMAZON_BOX_SIZES).Perm
      ([book, heavyItem].filter
        (fun i => !(AMAZON_BOX_SIZES.any (fun t => newBoxFitsCheck i t))))) := by
  refine ⟨⟨?_, ?_, ?_⟩, ?_⟩
  · intro t ht
    fin_cases ht <;> norm_num [AMAZON_BOX_SIZES]
  · intro i hi
    fin_cases hi <;> norm_num [book, heavyItem]
  · intro i hi
    fin_cases hi <;> norm_num [book, heavyItem]
  · exact claim_c3_unpackable [book, heavyItem] AMAZON_BOX_SIZES
      (by intro t ht; fin_cases ht <;> norm_num [AMAZON_BOX_SIZES])
      (by intro i hi; fin_cases hi <;> norm_num [book, heavyItem])
      (by intro i hi; fin_cases hi <;> norm_num [book, heavyItem])

/-- C4: for every deferred item type, requested quantity and existing packing
(satisfying the data-model positivity of container volumes and nonnegative
fill), the Consolidation Simulator returns exactly as many containers as its
input, adds at most the requested quantity, its result is the given number of
single-unit best-fit placements, it stops only when the quota is reached or
no container fits another unit, and the best-fit selection always picks a
fitting container of maximal resulting fill, earliest on ties. -/
theorem claim_c4_simulator (item : Item) (q : Nat) (boxes : List PackedBox)
    (Hv : 0 ≤ getItemVolume item)
    (Hb : ∀ b ∈ boxes, 0 < b.type.volume ∧ 0 ≤ b.filledVolume) :
    (tryAddItemsToExistingBoxes item q boxes).newPackedBoxes.length =
      boxes.length ∧
    (tryAddItemsToExistingBoxes item q boxes).quantityAdded ≤ q ∧
    (tryAddItemsToExistingBoxes item q boxes).newPackedBoxes =
      placeUnits item (tryAddItemsToExistingBoxes item q boxes).quantityAdded
        boxes ∧
    ((tryAddItemsToExistingBoxes item q boxes).quantityAdded = q ∨
      ∀ b ∈ (tryAddItemsToExistingBoxes item q boxes).newPackedBoxes,
        boxFits item b = false) ∧
    (∀ bs : List PackedBox,
      (∀ b ∈ bs, 0 < b.type.volume ∧ 0 ≤ b.filledVolume) →
      ∀ i, bestFitBoxIndex item bs = some i →
        i < bs.length ∧ boxFits item (bs.getD i default) = true ∧
        ∀ k, k < bs.length → boxFits item (bs.getD k default) = true →
          potFill item (bs.getD k default) ≤ potFill item (bs.getD i default) ∧
          (k < i → potFill item (bs.getD k default) <
            potFill item (bs.getD i default))) := by
  obtain ⟨k, hk, hqa, hplace, hPfin, hlen, hstop⟩ := @tryAdd_pos item q boxes Hv Hb
  refine ⟨hlen, ?_, ?_, ?_, ?_⟩
  · rw [hqa]; exact hk
  · rw [hqa]; exact hplace
  · rcases hstop with hstop | hstop
    · exact Or.inl (by rw [hqa, hstop])
    · refine Or.inr ?_
      exact (bestFitBoxIndex_none_iff hPfin Hv).1 hstop
  · intro bs hbs i hi
    obtain ⟨h1, h2, hall⟩ := bestFitBoxIndex_some_spec hi
    refine ⟨h1, h2, ?_⟩
    intro kk hkk hfit
    have hmem : bs.getD kk default ∈ bs := getD_mem bs kk default hkk
    have hfill : -1 < potFill item (bs.getD kk default) :=
      lt_of_lt_of_le (by norm_num)
        (potFill_nonneg (hbs _ hmem).1 (hbs _ hmem).2 Hv)
    exact hall kk hkk hfit hfill

/-- Witness for C4: folding two more mugs into a single X-Large box holding
one book. -/
theorem claim_c4_witness :
    (0 ≤ getItemVolume mug ∧
      (∀ b ∈ wastefulPacking, 0 < b.type.volume ∧ 0 ≤ b.filledVolume)) ∧
    ((tryAddItemsToExistingBoxes mug 2 wastefulPacking).newPackedBoxes.length =
      wastefulPacking.length ∧
    (tryAddItemsToExistingBoxes mug 2 wastefulPacking).quantityAdded ≤ 2 ∧
    (tryAddItemsToExistingBoxes mug 2 wastefulPacking).newPackedBoxes =
      placeUnits mug
        (tryAddItemsToExistingBoxes mug 2 wastefulPacking).quantityAdded
        wastefulPacking ∧
    ((tryAddItemsToExistingBoxes mug 2 wastefulPacking).quantityAdded = 2 ∨
      ∀ b ∈ (tryAddItemsToExistingBoxes mug 2 wastefulPacking).newPackedBoxes,
        boxFits mug b = false) ∧
    (∀ bs : List PackedBox,
      (∀ b ∈ bs, 0 < b.type.volume ∧ 0 ≤ b.filledVolume) →
      ∀ i, bestFitBoxIndex mug bs = some i →
        i < bs.length ∧ boxFits mug (bs.getD i default) = true ∧
        ∀ k, k < bs.length → boxFits mug (bs.getD k default) = true →
          potFill mug (bs.getD k default) ≤ potFill mug (bs.getD i default) ∧
          (k < i → potFill mug (bs.getD k default) <
            potFill mug (bs.getD i default)))) := by
  have hv : 0 ≤ getItemVolume mug := by norm_num [getItemVolume, mug]
  have hb : ∀ b ∈ wastefulPacking, 0 < b.type.volume ∧ 0 ≤ b.filledVolume := by
    intro b hbmem
    fin_cases hbmem
    norm_num [wastefulPacking, xLargeBox]
  exact ⟨⟨hv, hb⟩, claim_c4_simulator mug 2 wastefulPacking hv hb⟩

/-- C5: for every item list (and catalog satisfying the data-model positivity
invariants), the packaging efficiency reported by the Metrics Calculator on
the Packing Engine's result is total filled volume divided by total container
volume times 100 when containers exist, 0 when there are none, and always
lies in the interval from 0 to 100. -/
theorem claim_c5_efficiency (items : List Item) (catalog : List BoxType)
    (Hcat : ∀ t ∈ catalog, 0 < t.volume ∧
      t.length * t.width * t.height ≤ t.volume)
    (Hdim : ∀ i ∈ items, 0 ≤ i.length ∧ 0 ≤ i.width ∧ 0 ≤ i.height)
    (Hw : ∀ i ∈ items, 0 ≤ i.weight) :
    (packOptimal items catalog = [] →
      (calculateMetrics (packOptimal items catalog)
        items).packagingEfficiencyScore = 0) ∧
    (packOptimal items catalog ≠ [] →
      (calculateMetrics (packOptimal items catalog)
          items).packagingEfficiencyScore =
        (totalPackedVolume (packOptimal items catalog) /
          totalBoxesVolume (packOptimal items catalog)) * 100) ∧
    0 ≤ (calculateMetrics (packOptimal items catalog)
      items).packagingEfficiencyScore ∧
    (calculateMetrics (packOptimal items catalog)
      items).packagingEfficiencyScore ≤ 100 := by
  obtain ⟨hgood, _, _, _⟩ := packOptimal_spec items catalog
    (fun t ht => (Hcat t ht).2) Hdim Hw
  have hfv0 : ∀ b ∈ packOptimal items catalog, 0 ≤ b.filledVolume := by
    intro b hb
    obtain ⟨_, hpool, hs, _⟩ := hgood b hb
    rw [hs.1]
    exact itemsVolume_nonneg fun j hj => getItemVolume_nonneg (Hdim j (hpool j hj))
  have hfvle : ∀ b ∈ packOptimal items catalog,
      b.filledVolume ≤ b.type.volume :=
    fun b hb => (hgood b hb).2.2.2.1
  have hvolpos : ∀ b ∈ packOptimal items catalog, 0 < b.type.volume :=
    fun b hb => (Hcat b.type (hgood b hb).1).1
  by_cases hne : packOptimal items catalog = []
  · refine ⟨fun _ => ?_, fun hcon => absurd hne hcon, ?_, ?_⟩
    · simp [calculateMetrics, hne, totalBoxesVolume]
    · simp [calculateMetrics, hne, totalBoxesVolume]
    · simp [calculateMetrics, hne, totalBoxesVolume]
  · have hV : 0 < totalBoxesVolume (packOptimal items catalog) :=
      totalBoxesVolume_pos hne hvolpos
    have hF0 : 0 ≤ totalPackedVolume (packOptimal items catalog) :=
      totalPackedVolume_nonneg hfv0
    have hFle : totalPackedVolume (packOptimal items catalog) ≤
        totalBoxesVolume (packOptimal items catalog) :=
      totalPackedVolume_le hfvle
    have heff : (calculateMetrics (packOptimal items catalog)
        items).packagingEfficiencyScore =
        (totalPackedVolume (packOptimal items catalog) /
          totalBoxesVolume (packOptimal items catalog)) * 100 := by
      simp [calculateMetrics, hV]
    refine ⟨fun hcon => absurd hcon hne, fun _ => heff, ?_, ?_⟩
    · rw [heff]
      exact mul_nonneg (div_nonneg hF0 (le_of_lt hV)) (by norm_num)
    · rw [heff]
      have hdiv : totalPackedVolume (packOptimal items catalog) /
          totalBoxesVolume (packOptimal items catalog) ≤ 1 :=
        (div_le_one hV).2 hFle
      nlinarith [hdiv]

/-- Witness for C5 at the book-and-mug order. -/
theorem claim_c5_witness :
    ((∀ t ∈ AMAZON_BOX_SIZES, 0 < t.volume ∧
        t.length * t.width * t.height ≤ t.volume) ∧
      (∀ i ∈ [book, mug], 0 ≤ i.length ∧ 0 ≤ i.width ∧ 0 ≤ i.height) ∧
      (∀ i ∈ [book, mug], 0 ≤ i.weight)) ∧
    (0 ≤ (calculateMetrics (packOptimal [book, mug] AMAZON_BOX_SIZES)
        [book, mug]).packagingEfficiencyScore ∧
      (calculateMetrics (packOptimal [book, mug] AMAZON_BOX_SIZES)
        [book, mug]).packagingEfficiencyScore ≤ 100) := by
  have h1 : ∀ t ∈ AMAZON_BOX_SIZES, 0 < t.volume ∧
      t.length * t.width * t.height ≤ t.volume := by
    intro t ht
    fin_cases ht <;> norm_num [AMAZON_BOX_SIZES]
  have h2 : ∀ i ∈ [book, mug], 0 ≤ i.length ∧ 0 ≤ i.width ∧ 0 ≤ i.height := by
    intro i hi
    fin_cases hi <;> norm_num [book, mug]
  have h3 : ∀ i ∈ [book, mug], 0 ≤ i.weight := by
    intro i hi
    fin_cases hi <;> norm_num [book, mug]
  obtain ⟨_, _, hb1, hb2⟩ :=
    claim_c5_efficiency [book, mug] AMAZON_BOX_SIZES h1 h2 h3
  exact ⟨⟨h1, h2, h3⟩, hb1, hb2⟩

/-- C7: the carbon saved reported by the Metrics Calculator is exactly the
per-item smallest-suitable-box baseline minus the actual impact with no
clamping; the per-item lookup indeed returns the minimal-volume catalog type
able to hold the item alone (or nothing when no type can); and there is a
concrete input on which the reported value is negative. -/
theorem claim_c7_carbon_saved :
    (∀ (packedBoxes : List PackedBox) (flatItemList : List Item),
      (calculateMetrics packedBoxes flatItemList).co2SavedByConsolidation =
        individualShipmentCO2 flatItemList - optimalCO2Impact packedBoxes) ∧
    (∀ (item : Item) (b : BoxType), suitableBoxFor item = some b →
      b ∈ AMAZON_BOX_SIZES ∧ suitableBoxCheck item b = true ∧
      ∀ t ∈ AMAZON_BOX_SIZES, suitableBoxCheck item t = true →
        b.volume ≤ t.volume) ∧
    (∀ item : Item, suitableBoxFor item = none →
      ∀ t ∈ AMAZON_BOX_SIZES, suitableBoxCheck item t = false) ∧
    ((calculateMetrics wastefulPacking [book]).co2SavedByConsolidation < 0) := by
  refine ⟨fun _ _ => rfl, fun item b h => suitableBoxFor_some_spec h,
    fun item h => suitableBoxFor_none_spec h, ?_⟩
  have hsort : sortBoxesAsc AMAZON_BOX_SIZES = AMAZON_BOX_SIZES := by
    norm_num [sortBoxesAsc, AMAZON_BOX_SIZES, List.insertionSort,
      List.orderedInsert, boxVolLe]
  have hsuit : suitableBoxFor book = some smallBox := by
    rw [suitableBoxFor, hsort]
    norm_num [AMAZON_BOX_SIZES, List.find?, suitableBoxCheck, book, smallBox]
  simp only [calculateMetrics, individualShipmentCO2, optimalCO2Impact,
    wastefulPacking, List.foldl_cons, List.foldl_nil, hsuit]
  norm_num [smallBox, xLargeBox, book]

/-- Witness for C7: the book's smallest suitable box is the Small box, which
is minimal among all suitable catalog entries. -/
theorem claim_c7_witness :
    suitableBoxFor book = some smallBox ∧
    (smallBox ∈ AMAZON_BOX_SIZES ∧ suitableBoxCheck book smallBox = true ∧
      ∀ t ∈ AMAZON_BOX_SIZES, suitableBoxCheck book t = true →
        smallBox.volume ≤ t.volume) := by
  have hsort : sortBoxesAsc AMAZON_BOX_SIZES = AMAZON_BOX_SIZES := by
    norm_num [sortBoxesAsc, AMAZON_BOX_SIZES, List.insertionSort,
      List.orderedInsert, boxVolLe]
  have hsuit : suitableBoxFor book = some smallBox := by
    rw [suitableBoxFor, hsort]
    norm_num [AMAZON_BOX_SIZES, List.find?, suitableBoxCheck, book, smallBox]
  exact ⟨hsuit, claim_c7_carbon_saved.2.1 book smallBox hsuit⟩

/-- C8: on the spec's input domain (nonnegative item dimensions, catalog
entries whose declared volume dominates their dimensions), the inline fit
check used when opening a new Phase 2 box and the inline check of the
per-item smallest-box lookup each coincide with the Fit Predicate evaluated
at zero filled-volume and zero total-weight. -/
theorem claim_c8_fit_predicate (item : Item) (box : BoxType)
    (hd : 0 ≤ item.length ∧ 0 ≤ item.width ∧ 0 ≤ item.height)
    (hv : box.length * box.width * box.height ≤ box.volume) :
    newBoxFitsCheck item box = doesItemFit item box 0 0 ∧
    suitableBoxCheck item box = doesItemFit item box 0 0 := by
  have hiff : newBoxFitsCheck item box = true ↔ doesItemFit item box 0 0 = true := by
    constructor
    · intro h
      rcases (newBoxFitsCheck_iff item box).1 h with ⟨h1, h2, h3, h4⟩
      refine (doesItemFit_iff item box 0 0).2 ⟨h1, h2, h3, ?_, ?_⟩
      · rw [zero_add]
        exact vol_le_of_newBoxFitsCheck h hd hv
      · rw [zero_add]
        exact h4
    · intro h
      rcases (doesItemFit_iff item box 0 0).1 h with ⟨h1, h2, h3, _, h5⟩
      exact (newBoxFitsCheck_iff item box).2 ⟨h1, h2, h3, by linarith⟩
  have heq : newBoxFitsCheck item box = doesItemFit item box 0 0 := by
    rcases hb : doesItemFit item box 0 0 with _ | _ <;>
      rcases ha : newBoxFitsCheck item box with _ | _ <;> simp_all
  exact ⟨heq, heq⟩

/-- Witness for C8 at the book and the Small box. -/
theorem claim_c8_witness :
    ((0 ≤ book.length ∧ 0 ≤ book.width ∧ 0 ≤ book.height) ∧
      smallBox.length * smallBox.width * smallBox.height ≤ smallBox.volume) ∧
    (newBoxFitsCheck book smallBox = doesItemFit book smallBox 0 0 ∧
      suitableBoxCheck book smallBox = doesItemFit book smallBox 0 0) := by
  have hd : 0 ≤ book.length ∧ 0 ≤ book.width ∧ 0 ≤ book.height := by
    norm_num [book]
  have hv : smallBox.length * smallBox.width * smallBox.height ≤
      smallBox.volume := by
    norm_num [smallBox]
  exact ⟨⟨hd, hv⟩, claim_c8_fit_predicate book smallBox hd hv⟩

/-- C10: for every container type (positive volume and weight limit per the
data model) and item list with positive dimensions and weights, the Phase 1
sequential all-items test succeeds exactly when every item fits axis-wise and
the total volume and weight sums are within the container limits; in
particular the test does not depend on the processing order. -/
theorem claim_c10_phase1_order_free (box : BoxType) (items : List Item)
    (Hbox : 0 < box.volume ∧ 0 < box.maxWeight)
    (Hpos : ∀ i ∈ items,
      0 < i.length ∧ 0 < i.width ∧ 0 < i.height ∧ 0 < i.weight) :
    (phase1Fits box items = true ↔
      ((∀ i ∈ items, i.length ≤ box.length ∧ i.width ≤ box.width ∧
          i.height ≤ box.height) ∧
        itemsVolume items ≤ box.volume ∧
        itemsWeight items ≤ box.maxWeight)) ∧
    (∀ l2 : List Item, l2.Perm items →
      phase1Fits box l2 = phase1Fits box items) := by
  have key : ∀ l : List Item,
      (∀ i ∈ l, 0 < i.length ∧ 0 < i.width ∧ 0 < i.height ∧ 0 < i.weight) →
      (phase1Fits box l = true ↔
        ((∀ i ∈ l, i.length ≤ box.length ∧ i.width ≤ box.width ∧
            i.height ≤ box.height) ∧
          itemsVolume l ≤ box.volume ∧ itemsWeight l ≤ box.maxWeight)) := by
    intro l hl
    rw [phase1Fits]
    have := @phase1Run_isSome_iff box l 0 0 (le_refl 0)
      (le_of_lt Hbox.1) (le_refl 0) (le_of_lt Hbox.2) hl
    simpa using this
  refine ⟨key items Hpos, ?_⟩
  intro l2 hperm
  have hpos2 : ∀ i ∈ l2,
      0 < i.length ∧ 0 < i.width ∧ 0 < i.height ∧ 0 < i.weight :=
    fun i hi => Hpos i (hperm.mem_iff.1 hi)
  have hvol : itemsVolume l2 = itemsVolume items :=
    (hperm.map getItemVolume).sum_eq
  have hwt : itemsWeight l2 = itemsWeight items :=
    (hperm.map Item.weight).sum_eq
  have hax : (∀ i ∈ l2, i.length ≤ box.length ∧ i.width ≤ box.width ∧
      i.height ≤ box.height) ↔
      (∀ i ∈ items, i.length ≤ box.length ∧ i.width ≤ box.width ∧
        i.height ≤ box.height) := by
    constructor
    · intro h i hi
      exact h i (hperm.mem_iff.2 hi)
    · intro h i hi
      exact h i (hperm.mem_iff.1 hi)
  have h2 := key l2 hpos2
  have h1 := key items Hpos
  rcases hb : phase1Fits box items with _ | _ <;>
    rcases hb2 : phase1Fits box l2 with _ | _
  · rfl
  · exfalso
    obtain ⟨ha, hv2, hw2⟩ := h2.1 hb2
    have : phase1Fits box items = true :=
      h1.2 ⟨hax.1 ha, by rw [← hvol]; exact hv2, by rw [← hwt]; exact hw2⟩
    rw [hb] at this
    cases this
  · exfalso
    obtain ⟨ha, hv2, hw2⟩ := h1.1 hb
    have : phase1Fits box l2 = true :=
      h2.2 ⟨hax.2 ha, by rw [hvol]; exact hv2, by rw [hwt]; exact hw2⟩
    rw [hb2] at this
    cases this
  · rfl

/-- Witness for C10 at the Small box and the book-and-mug list. -/
theorem claim_c10_witness :
    ((0 < smallBox.volume ∧ 0 < smallBox.maxWeight) ∧
      (∀ i ∈ [book, mug],
        0 < i.length ∧ 0 < i.width ∧ 0 < i.height ∧ 0 < i.weight)) ∧
    ((phase1Fits smallBox [book, mug] = true ↔
      ((∀ i ∈ [book, mug], i.length ≤ smallBox.length ∧
          i.width ≤ smallBox.width ∧ i.height ≤ smallBox.height) ∧
        itemsVolume [book, mug] ≤ smallBox.volume ∧
        itemsWeight [book, mug] ≤ smallBox.maxWeight)) ∧
    (∀ l2 : List Item, l2.Perm [book, mug] →
      phase1Fits smallBox l2 = phase1Fits smallBox [book, mug])) := by
  have h1 : 0 < smallBox.volume ∧ 0 < smallBox.maxWeight := by
    norm_num [smallBox]
  have h2 : ∀ i ∈ [book, mug],
      0 < i.length ∧ 0 < i.width ∧ 0 < i.height ∧ 0 < i.weight := by
    intro i hi
    fin_cases hi <;> norm_num [book, mug]
  exact ⟨⟨h1, h2⟩, claim_c10_phase1_order_free smallBox [book, mug] h1 h2⟩

theorem suggestionFor_rejected {cart : List Item} {catalog : List BoxType}
    {orig : List PackedBox} {m : Metrics} {it : Item} {q : Nat}
    (h : (tryAddItemsToExistingBoxes it q orig).quantityAdded = 0) :
    suggestionFor cart catalog orig m it q =
      [Suggestion.tooBig it tooBigMessage] := by
  simp [suggestionFor, h]

theorem suggestionFor_accepted {cart : List Item} {catalog : List BoxType}
    {orig : List PackedBox} {m : Metrics} {it : Item} {q : Nat}
    (h : 0 < (tryAddItemsToExistingBoxes it q orig).quantityAdded)
    (hth : (1/100 : ℚ) < co2SavedByCombiningFor cart catalog orig m it q ∨
      (1/10 : ℚ) < efficiencyImprovementFor cart orig m it q) :
    suggestionFor cart catalog orig m it q =
      [Suggestion.suggestion it
        (tryAddItemsToExistingBoxes it q orig).quantityAdded false
        (efficiencyImprovementFor cart orig m it q)
        (co2SavedByCombiningFor cart catalog orig m it q)
        m.totalBoxes m.totalBoxes] := by
  simp only [suggestionFor]
  rw [if_pos h, if_pos hth]

theorem suggestionFor_suppressed {cart : List Item} {catalog : List BoxType}
    {orig : List PackedBox} {m : Metrics} {it : Item} {q : Nat}
    (h : 0 < (tryAddItemsToExistingBoxes it q orig).quantityAdded)
    (hth : ¬ ((1/100 : ℚ) < co2SavedByCombiningFor cart catalog orig m it q ∨
      (1/10 : ℚ) < efficiencyImprovementFor cart orig m it q)) :
    suggestionFor cart catalog orig m it q = [] := by
  simp only [suggestionFor]
  rw [if_pos h, if_neg hth]

/-- C6: per distinct deferred item type (with its saved quantity at least 1,
on the spec's input domain), a Rejected (tooBig) suggestion is emitted
exactly when no unit fits any existing container of the baseline packing; a
Foldable suggestion carrying the computed improvement figures is emitted
exactly when at least one unit fits and the carbon threshold (0.01) or the
efficiency threshold (0.1) is exceeded; and when at least one unit fits but
neither threshold is exceeded no suggestion is emitted for that type. -/
theorem claim_c6_suggestions (cart : List Item) (saved : List (Item × Nat))
    (catalog : List BoxType)
    (Hq : ∀ e ∈ saved, 1 ≤ e.2)
    (Hcat : ∀ t ∈ catalog, 0 < t.volume ∧
      t.length * t.width * t.height ≤ t.volume)
    (Hdim : ∀ i ∈ cart, 0 ≤ i.length ∧ 0 ≤ i.width ∧ 0 ≤ i.height)
    (Hw : ∀ i ∈ cart, 0 ≤ i.weight)
    (Hsv : ∀ e ∈ saved, 0 ≤ getItemVolume e.1) :
    getBulkOrderSuggestions cart saved catalog =
      saved.flatMap (fun e =>
        suggestionFor cart catalog (packOptimal cart catalog)
          (calculateMetrics (packOptimal cart catalog) cart) e.1 e.2) ∧
    ∀ e ∈ saved,
      ((∀ b ∈ packOptimal cart catalog, boxFits e.1 b = false) ↔
        suggestionFor cart catalog (packOptimal cart catalog)
          (calculateMetrics (packOptimal cart catalog) cart) e.1 e.2 =
          [Suggestion.tooBig e.1 tooBigMessage]) ∧
      ((∃ b ∈ packOptimal cart catalog, boxFits e.1 b = true) →
        (((1/100 : ℚ) < co2SavedByCombiningFor cart catalog
            (packOptimal cart catalog)
            (calculateMetrics (packOptimal cart catalog) cart) e.1 e.2 ∨
          (1/10 : ℚ) < efficiencyImprovementFor cart
            (packOptimal cart catalog)
            (calculateMetrics (packOptimal cart catalog) cart) e.1 e.2) →
          suggestionFor cart catalog (packOptimal cart catalog)
            (calculateMetrics (packOptimal cart catalog) cart) e.1 e.2 =
            [Suggestion.suggestion e.1
              (tryAddItemsToExistingBoxes e.1 e.2
                (packOptimal cart catalog)).quantityAdded false
              (efficiencyImprovementFor cart (packOptimal cart catalog)
                (calculateMetrics (packOptimal cart catalog) cart) e.1 e.2)
              (co2SavedByCombiningFor cart catalog (packOptimal cart catalog)
                (calculateMetrics (packOptimal cart catalog) cart) e.1 e.2)
              (calculateMetrics (packOptimal cart catalog) cart).totalBoxes
              (calculateMetrics (packOptimal cart catalog) cart).totalBoxes]) ∧
        (¬ ((1/100 : ℚ) < co2SavedByCombiningFor cart catalog
            (packOptimal cart catalog)
            (calculateMetrics (packOptimal cart catalog) cart) e.1 e.2 ∨
          (1/10 : ℚ) < efficiencyImprovementFor cart
            (packOptimal cart catalog)
            (calculateMetrics (packOptimal cart catalog) cart) e.1 e.2) →
          suggestionFor cart catalog (packOptimal cart catalog)
            (calculateMetrics (packOptimal cart catalog) cart) e.1 e.2 =
            [])) := by
  obtain ⟨hgood, _, _, _⟩ := packOptimal_spec cart catalog
    (fun t ht => (Hcat t ht).2) Hdim Hw
  have hpos : ∀ b ∈ packOptimal cart catalog,
      0 < b.type.volume ∧ 0 ≤ b.filledVolume := by
    intro b hb
    obtain ⟨htype, hpool, hs, _⟩ := hgood b hb
    refine ⟨(Hcat b.type htype).1, ?_⟩
    rw [hs.1]
    exact itemsVolume_nonneg fun j hj =>
      getItemVolume_nonneg (Hdim j (hpool j hj))
  constructor
  · cases saved with
    | nil => simp [getBulkOrderSuggestions]
    | cons e rest => simp [getBulkOrderSuggestions]
  · intro e he
    have hq := Hq e he
    have hsv := Hsv e he
    have hzero : (tryAddItemsToExistingBoxes e.1 e.2
        (packOptimal cart catalog)).quantityAdded = 0 ↔
        (∀ b ∈ packOptimal cart catalog, boxFits e.1 b = false) := by
      rw [tryAdd_qa_zero_iff hq]
      exact bestFitBoxIndex_none_iff hpos hsv
    constructor
    · constructor
      · intro hnofit
        exact suggestionFor_rejected (hzero.2 hnofit)
      · intro hsugg
        refine hzero.1 ?_
        by_contra h0
        have hposqa : 0 < (tryAddItemsToExistingBoxes e.1 e.2
            (packOptimal cart catalog)).quantityAdded := Nat.pos_of_ne_zero h0
        by_cases hth : (1/100 : ℚ) < co2SavedByCombiningFor cart catalog
            (packOptimal cart catalog)
            (calculateMetrics (packOptimal cart catalog) cart) e.1 e.2 ∨
            (1/10 : ℚ) < efficiencyImprovementFor cart
              (packOptimal cart catalog)
              (calculateMetrics (packOptimal cart catalog) cart) e.1 e.2
        · rw [suggestionFor_accepted hposqa hth] at hsugg
          simp at hsugg
        · rw [suggestionFor_suppressed hposqa hth] at hsugg
          simp at hsugg
    · intro hfit
      have hposqa : 0 < (tryAddItemsToExistingBoxes e.1 e.2
          (packOptimal cart catalog)).quantityAdded := by
        refine Nat.pos_of_ne_zero fun h0 => ?_
        obtain ⟨b, hb, hbf⟩ := hfit
        have := hzero.1 h0 b hb
        rw [hbf] at this
        cases this
      exact ⟨fun hth => suggestionFor_accepted hposqa hth,
        fun hth => suggestionFor_suppressed hposqa hth⟩

/-- Witness for C6 with one saved 30 kg item against a book-only cart. -/
theorem claim_c6_witness :
    ((∀ e ∈ [(heavyItem, 2)], 1 ≤ e.2) ∧
      (∀ t ∈ AMAZON_BOX_SIZES, 0 < t.volume ∧
        t.length * t.width * t.height ≤ t.volume) ∧
      (∀ i ∈ [book], 0 ≤ i.length ∧ 0 ≤ i.width ∧ 0 ≤ i.height) ∧
      (∀ i ∈ [book], 0 ≤ i.weight) ∧
      (∀ e ∈ [(heavyItem, 2)], 0 ≤ getItemVolume e.1)) ∧
    ((∀ b ∈ packOptimal [book] AMAZON_BOX_SIZES,
        boxFits heavyItem b = false) ↔
      suggestionFor [book] AMAZON_BOX_SIZES
        (packOptimal [book] AMAZON_BOX_SIZES)
        (calculateMetrics (packOptimal [book] AMAZON_BOX_SIZES) [book])
        heavyItem 2 = [Suggestion.tooBig heavyItem tooBigMessage]) := by
  have hq : ∀ e ∈ [(heavyItem, 2)], 1 ≤ e.2 := by
    intro e he
    fin_cases he
    norm_num
  have hcat : ∀ t ∈ AMAZON_BOX_SIZES, 0 < t.volume ∧
      t.length * t.width * t.height ≤ t.volume := by
    intro t ht
    fin_cases ht <;> norm_num [AMAZON_BOX_SIZES]
  have hdim : ∀ i ∈ [book], 0 ≤ i.length ∧ 0 ≤ i.width ∧ 0 ≤ i.height := by
    intro i hi
    fin_cases hi
    norm_num [book]
  have hw : ∀ i ∈ [book], 0 ≤ i.weight := by
    intro i hi
    fin_cases hi
    norm_num [book]
  have hsv : ∀ e ∈ [(heavyItem, 2)], 0 ≤ getItemVolume e.1 := by
    intro e he
    fin_cases he
    norm_num [getItemVolume, heavyItem]
  have := (claim_c6_suggestions [book] [(heavyItem, 2)] AMAZON_BOX_SIZES
    hq hcat hdim hw hsv).2 (heavyItem, 2) (List.mem_singleton.2 rfl)
  exact ⟨⟨hq, hcat, hdim, hw, hsv⟩, this.1⟩

/-! ### Frame lemmas for the reference-semantics rendering -/

theorem heapAgreesBelow_refl (s : JSHeap) (base : Nat) :
    heapAgreesBelow s s base :=
  fun _ _ => ⟨rfl, rfl, rfl⟩

theorem heapAgreesBelow_trans {s1 s2 s3 : JSHeap} {base : Nat}
    (h1 : heapAgreesBelow s1 s2 base) (h2 : heapAgreesBelow s2 s3 base) :
    heapAgreesBelow s1 s3 base := by
  intro a ha
  obtain ⟨a1, a2, a3⟩ := h1 a ha
  obtain ⟨b1, b2, b3⟩ := h2 a ha
  exact ⟨b1.trans a1, b2.trans a2, b3.trans a3⟩

theorem heapAgreesBelow_weaken {s1 s2 : JSHeap} {base base2 : Nat}
    (h : heapAgreesBelow s1 s2 base) (hle : base2 ≤ base) :
    heapAgreesBelow s1 s2 base2 :=
  fun a ha => h a (lt_of_lt_of_le ha hle)

theorem allocItems_agrees (s : JSHeap) (l : List Item) {base : Nat}
    (h : base ≤ s.next) :
    heapAgreesBelow s (s.allocItems l).1 base := by
  intro a ha
  refine ⟨?_, rfl, rfl⟩
  simp only [JSHeap.allocItems]
  rw [if_neg (by omega)]

theorem allocBox_agrees (s : JSHeap) (b : JBoxObj) {base : Nat}
    (h : base ≤ s.next) :
    heapAgreesBelow s (s.allocBox b).1 base := by
  intro a ha
  refine ⟨rfl, rfl, ?_⟩
  simp only [JSHeap.allocBox]
  rw [if_neg (by omega)]

theorem writeItems_agrees (s : JSHeap) (r : Nat) (l : List Item) {base : Nat}
    (h : base ≤ r) :
    heapAgreesBelow s (s.writeItems r l) base := by
  intro a ha
  refine ⟨?_, rfl, rfl⟩
  simp only [JSHeap.writeItems]
  rw [if_neg (by omega)]

theorem writeBox_agrees (s : JSHeap) (r : Nat) (b : JBoxObj) {base : Nat}
    (h : base ≤ r) :
    heapAgreesBelow s (s.writeBox r b) base := by
  intro a ha
  refine ⟨rfl, rfl, ?_⟩
  simp only [JSHeap.writeBox]
  rw [if_neg (by omega)]

theorem addItemToBoxH_agrees (s : JSHeap) (r : Nat) (item : Item) {base : Nat}
    (hr : base ≤ r) (hir : base ≤ (s.boxObjs r).itemsRef) :
    heapAgreesBelow s (addItemToBoxH s r item) base := by
  simp only [addItemToBoxH]
  exact heapAgreesBelow_trans
    (writeItems_agrees s (s.boxObjs r).itemsRef
      (s.itemArrs (s.boxObjs r).itemsRef ++ [item]) hir)
    (writeBox_agrees _ r _ hr)

theorem addItemToBoxH_next (s : JSHeap) (r : Nat) (item : Item) :
    (addItemToBoxH s r item).next = s.next := rfl

theorem addItemToBoxH_itemsRef (s : JSHeap) (r : Nat) (item : Item) :
    ∀ a, ((addItemToBoxH s r item).boxObjs a).itemsRef =
      (s.boxObjs a).itemsRef := by
  intro a
  simp only [addItemToBoxH, JSHeap.writeBox, JSHeap.writeItems]
  by_cases h : a = r
  · subst h
    simp
  · rw [if_neg h]

theorem bestFitAuxH_some_lt (s : JSHeap) (item : Item) :
    ∀ (refs : List Nat) (i : Nat) (best : Option Nat) (highest : ℚ) (j : Nat),
      (best = none ∨ ∃ jb, best = some jb ∧ jb < i) →
      bestFitAuxH s item refs i best highest = some j → j < i + refs.length := by
  intro refs
  induction refs with
  | nil =>
    intro i best highest j hinv h
    simp only [bestFitAuxH] at h
    rcases hinv with hb | ⟨jb, hb, hlt⟩
    · rw [hb] at h; cases h
    · rw [hb] at h
      simp only [Option.some.injEq] at h
      subst h
      simpa using hlt
  | cons r rest ih =>
    intro i best highest j hinv h
    by_cases h1 : jBoxFits item (s.boxObjs r)
    · by_cases h2 : highest < jPotFill item (s.boxObjs r)
      · simp only [bestFitAuxH, h1, if_true, h2] at h
        have := ih (i + 1) (some i) _ j (Or.inr ⟨i, rfl, Nat.lt_succ_self i⟩) h
        simp only [List.length_cons]
        omega
      · simp only [bestFitAuxH, h1, if_true, h2, if_false] at h
        have hinv2 : best = none ∨ ∃ jb, best = some jb ∧ jb < i + 1 := by
          rcases hinv with hb | ⟨jb, hb, hlt⟩
          · exact Or.inl hb
          · exact Or.inr ⟨jb, hb, by omega⟩
        have := ih (i + 1) best highest j hinv2 h
        simp only [List.length_cons]
        omega
    · simp only [bestFitAuxH, h1, if_false] at h
      have hinv2 : best = none ∨ ∃ jb, best = some jb ∧ jb < i + 1 := by
        rcases hinv with hb | ⟨jb, hb, hlt⟩
        · exact Or.inl hb
        · exact Or.inr ⟨jb, hb, by omega⟩
      have := ih (i + 1) best highest j hinv2 h
      simp only [List.length_cons]
      omega

theorem bestFitBoxIndexH_some_lt {s : JSHeap} {item : Item} {refs : List Nat}
    {i : Nat} (h : bestFitBoxIndexH s item refs = some i) : i < refs.length := by
  have := bestFitAuxH_some_lt s item refs 0 none (-1) i (Or.inl rfl) h
  simpa using this

theorem fillBoxH_frame {base : Nat} :
    ∀ (l : List Item) (s : JSHeap) (r : Nat), base ≤ r →
      base ≤ (s.boxObjs r).itemsRef →
      heapAgreesBelow s (fillBoxH s r l).1 base ∧
      (fillBoxH s r l).1.next = s.next ∧
      (∀ a, ((fillBoxH s r l).1.boxObjs a).itemsRef =
        (s.boxObjs a).itemsRef) := by
  intro l
  induction l with
  | nil =>
    intro s r _ _
    exact ⟨heapAgreesBelow_refl s base, rfl, fun _ => rfl⟩
  | cons item rest ih =>
    intro s r hr hir
    by_cases h : jBoxFits item (s.boxObjs r)
    · have hstep := addItemToBoxH_agrees s r item hr hir
      have hir2 : base ≤ ((addItemToBoxH s r item).boxObjs r).itemsRef := by
        rw [addItemToBoxH_itemsRef]
        exact hir
      obtain ⟨g1, g2, g3⟩ := ih (addItemToBoxH s r item) r hr hir2
      refine ⟨?_, ?_, ?_⟩
      · simp only [fillBoxH, h, if_true]
        exact heapAgreesBelow_trans hstep g1
      · simp only [fillBoxH, h, if_true]
        rw [g2, addItemToBoxH_next]
      · intro a
        simp only [fillBoxH, h, if_true]
        rw [g3, addItemToBoxH_itemsRef]
    · obtain ⟨g1, g2, g3⟩ := ih s r hr hir
      exact ⟨by simpa [fillBoxH, h] using g1, by simpa [fillBoxH, h] using g2,
        fun a => by simpa [fillBoxH, h] using g3 a⟩

theorem fillBoxH_pending_length (s : JSHeap) (r : Nat) (l : List Item) :
    (fillBoxH s r l).2.length ≤ l.length := by
  induction l generalizing s with
  | nil => simp [fillBoxH]
  | cons item rest ih =>
    by_cases h : jBoxFits item (s.boxObjs r)
    · simpa [fillBoxH, h] using le_trans (ih _) (Nat.le_succ _)
    · simpa [fillBoxH, h] using ih s

theorem phase2H_nil (sb : List BoxType) (s : JSHeap) (refs : List Nat) :
    phase2H sb s refs [] = (s, refs) := by
  rw [phase2H]

theorem phase2H_cons_existing {sb : List BoxType} {s : JSHeap}
    {refs : List Nat} {c : Item} {pend : List Item} {i : Nat}
    (h : bestFitBoxIndexH s c refs = some i) :
    phase2H sb s refs (c :: pend) =
      phase2H sb
        (fillBoxH (addItemToBoxH s (refs.getD i 0) c) (refs.getD i 0) pend).1
        refs
        (fillBoxH (addItemToBoxH s (refs.getD i 0) c) (refs.getD i 0) pend).2 := by
  rw [phase2H]
  simp [h]

theorem phase2H_cons_newbox {sb : List BoxType} {s : JSHeap}
    {refs : List Nat} {c : Item} {pend : List Item} {t : BoxType}
    (h1 : bestFitBoxIndexH s c refs = none)
    (h2 : newBoxCandidate c sb = some t) :
    phase2H sb s refs (c :: pend) =
      phase2H sb
        (fillBoxH ((JSHeap.allocItems s [c]).1.allocBox
            { type := t, itemsRef := (JSHeap.allocItems s [c]).2,
              filledVolume := getItemVolume c,
              totalWeight := c.weight }).1
          ((JSHeap.allocItems s [c]).1.allocBox
            { type := t, itemsRef := (JSHeap.allocItems s [c]).2,
              filledVolume := getItemVolume c,
              totalWeight := c.weight }).2 pend).1
        (refs ++ [((JSHeap.allocItems s [c]).1.allocBox
            { type := t, itemsRef := (JSHeap.allocItems s [c]).2,
              filledVolume := getItemVolume c,
              totalWeight := c.weight }).2])
        (fillBoxH ((JSHeap.allocItems s [c]).1.allocBox
            { type := t, itemsRef := (JSHeap.allocItems s [c]).2,
              filledVolume := getItemVolume c,
              totalWeight := c.weight }).1
          ((JSHeap.allocItems s [c]).1.allocBox
            { type := t, itemsRef := (JSHeap.allocItems s [c]).2,
              filledVolume := getItemVolume c,
              totalWeight := c.weight }).2 pend).2 := by
  rw [phase2H]
  simp [h1, h2]

theorem phase2H_cons_drop {sb : List BoxType} {s : JSHeap}
    {refs : List Nat} {c : Item} {pend : List Item}
    (h1 : bestFitBoxIndexH s c refs = none)
    (h2 : newBoxCandidate c sb = none) :
    phase2H sb s refs (c :: pend) = phase2H sb s refs pend := by
  rw [phase2H]
  simp [h1, h2]

/-- Packaged form of the new-box step: names the post-allocation heap and
the new reference together with the facts the frame proof needs. -/
theorem phase2H_cons_newbox_step {sb : List BoxType} {s : JSHeap}
    {refs : List Nat} {c : Item} {pend : List Item} {t : BoxType}
    (h1 : bestFitBoxIndexH s c refs = none)
    (h2 : newBoxCandidate c sb = some t) :
    ∃ (sB : JSHeap) (rB : Nat),
      phase2H sb s refs (c :: pend) =
        phase2H sb (fillBoxH sB rB pend).1 (refs ++ [rB])
          (fillBoxH sB rB pend).2 ∧
      sB.next = s.next + 2 ∧ rB = s.next + 1 ∧
      (sB.boxObjs rB).itemsRef = s.next ∧
      (∀ a, a ≠ rB → sB.boxObjs a = s.boxObjs a) ∧
      (∀ a, a < s.next → sB.itemArrs a = s.itemArrs a) ∧
      (∀ a, sB.typeArrs a = s.typeArrs a) := by
  refine ⟨((JSHeap.allocItems s [c]).1.allocBox
      { type := t, itemsRef := (JSHeap.allocItems s [c]).2,
        filledVolume := getItemVolume c, totalWeight := c.weight }).1,
    ((JSHeap.allocItems s [c]).1.allocBox
      { type := t, itemsRef := (JSHeap.allocItems s [c]).2,
        filledVolume := getItemVolume c, totalWeight := c.weight }).2,
    phase2H_cons_newbox h1 h2, rfl, rfl, ?_, ?_, ?_, fun a => rfl⟩
  · simp [JSHeap.allocBox, JSHeap.allocItems]
  · intro a ha
    simp only [JSHeap.allocBox, JSHeap.allocItems] at ha ⊢
    rw [if_neg ha]
  · intro a ha
    simp only [JSHeap.allocBox, JSHeap.allocItems]
    rw [if_neg (by omega)]

theorem phase2H_frame (sb : List BoxType) (base : Nat) :
    ∀ (n : Nat) (pending : List Item), pending.length ≤ n →
      ∀ (s : JSHeap) (refs : List Nat), base ≤ s.next →
      (∀ r ∈ refs, base ≤ r ∧ base ≤ (s.boxObjs r).itemsRef) →
      heapAgreesBelow s (phase2H sb s refs pending).1 base ∧
      base ≤ (phase2H sb s refs pending).1.next := by
  intro n
  induction n with
  | zero =>
    intro pending hlen s refs hnext _
    have hnil : pending = [] := by
      cases pending with
      | nil => rfl
      | cons a l => simp at hlen
    subst hnil
    rw [phase2H_nil]
    exact ⟨heapAgreesBelow_refl s base, hnext⟩
  | succ n ihn =>
    intro pending hlen s refs hnext hrefs
    cases pending with
    | nil =>
      rw [phase2H_nil]
      exact ⟨heapAgreesBelow_refl s base, hnext⟩
    | cons c pend =>
      have hlen2 : pend.length ≤ n := by
        simp only [List.length_cons] at hlen
        omega
      rcases hbf : bestFitBoxIndexH s c refs with _ | i
      · rcases hnb : newBoxCandidate c sb with _ | t
        · rw [phase2H_cons_drop hbf hnb]
          exact ihn pend hlen2 s refs hnext hrefs
        · obtain ⟨sB, rB, heq, hn2, hrB, hiR, hobj, hita, htya⟩ :=
            @phase2H_cons_newbox_step sb s refs c pend t hbf hnb
          rw [heq]
          have hagree0 : heapAgreesBelow s sB base := by
            intro a ha
            refine ⟨hita a (by omega), htya a, hobj a (by omega)⟩
          obtain ⟨f1, f2, f3⟩ := @fillBoxH_frame base pend sB rB
            (by omega) (by rw [hiR]; omega)
          have hnext2 : base ≤ (fillBoxH sB rB pend).1.next := by
            rw [f2]
            omega
          have hrefs2 : ∀ r ∈ refs ++ [rB], base ≤ r ∧
              base ≤ ((fillBoxH sB rB pend).1.boxObjs r).itemsRef := by
            intro r hr
            rcases List.mem_append.1 hr with hr | hr
            · refine ⟨(hrefs r hr).1, ?_⟩
              rw [f3]
              by_cases hcase : r = rB
              · rw [hcase, hiR]
                omega
              · rw [hobj r hcase]
                exact (hrefs r hr).2
            · have hreq : r = rB := List.mem_singleton.1 hr
              subst hreq
              refine ⟨by omega, ?_⟩
              rw [f3, hiR]
              omega
          obtain ⟨g1, g2⟩ := ihn (fillBoxH sB rB pend).2
            (le_trans (fillBoxH_pending_length _ _ _) hlen2)
            (fillBoxH sB rB pend).1 (refs ++ [rB]) hnext2 hrefs2
          exact ⟨heapAgreesBelow_trans hagree0
            (heapAgreesBelow_trans f1 g1), g2⟩
      · rw [phase2H_cons_existing hbf]
        have hrmem : refs.getD i 0 ∈ refs :=
          getD_mem refs i 0 (bestFitBoxIndexH_some_lt hbf)
        have hrb := hrefs _ hrmem
        have hstep := addItemToBoxH_agrees s (refs.getD i 0) c hrb.1 hrb.2
        have hir2 : base ≤ ((addItemToBoxH s (refs.getD i 0) c).boxObjs
            (refs.getD i 0)).itemsRef := by
          rw [addItemToBoxH_itemsRef]
          exact hrb.2
        obtain ⟨f1, f2, f3⟩ := @fillBoxH_frame base pend
          (addItemToBoxH s (refs.getD i 0) c) (refs.getD i 0) hrb.1 hir2
        have hnext2 : base ≤ (fillBoxH (addItemToBoxH s (refs.getD i 0) c)
            (refs.getD i 0) pend).1.next := by
          rw [f2, addItemToBoxH_next]
          exact hnext
        have hrefs2 : ∀ r ∈ refs, base ≤ r ∧
            base ≤ ((fillBoxH (addItemToBoxH s (refs.getD i 0) c)
              (refs.getD i 0) pend).1.boxObjs r).itemsRef := by
          intro r hr
          refine ⟨(hrefs r hr).1, ?_⟩
          rw [f3, addItemToBoxH_itemsRef]
          exact (hrefs r hr).2
        obtain ⟨g1, g2⟩ := ihn (fillBoxH (addItemToBoxH s (refs.getD i 0) c)
            (refs.getD i 0) pend).2
          (le_trans (fillBoxH_pending_length _ _ _) hlen2)
          (fillBoxH (addItemToBoxH s (refs.getD i 0) c) (refs.getD i 0) pend).1
          refs hnext2 hrefs2
        exact ⟨heapAgreesBelow_trans hstep (heapAgreesBelow_trans f1 g1), g2⟩

theorem packOptimalH_frame (s : JSHeap) (aItems aTypes : Nat) :
    heapAgreesBelow s (packOptimalH s aItems aTypes).1 s.next ∧
    s.next ≤ (packOptimalH s aItems aTypes).1.next := by
  by_cases hemp : (s.itemArrs aItems).isEmpty
  · simp only [packOptimalH, hemp, if_true]
    exact ⟨heapAgreesBelow_refl s s.next, le_refl _⟩
  · rcases hph : phase1 (sortItemsDesc (s.itemArrs aItems))
        (sortBoxesAsc (s.typeArrs aTypes)) with _ | b
    · simp only [packOptimalH, hemp, if_false, hph, Bool.false_eq_true]
      exact phase2H_frame (sortBoxesAsc (s.typeArrs aTypes)) s.next
        (sortItemsDesc (s.itemArrs aItems)).length _ (le_refl _) s []
        (le_refl _) (by intro r hr; simp at hr)
    · simp only [packOptimalH, hemp, if_false, hph, Bool.false_eq_true]
      constructor
      · exact heapAgreesBelow_trans
          (allocItems_agrees s _ (le_refl _))
          (allocBox_agrees _ _ (by
            show s.next ≤ s.next + 1
            omega))
      · show s.next ≤ s.next + 1 + 1
        omega

theorem copySimBoxes_cons_step (s : JSHeap) (r : Nat) (rest : List Nat) :
    ∃ (sB : JSHeap) (rB : Nat),
      copySimBoxes s (r :: rest) =
        ((copySimBoxes sB rest).1, rB :: (copySimBoxes sB rest).2) ∧
      sB.next = s.next + 2 ∧ rB = s.next + 1 ∧
      (sB.boxObjs rB).itemsRef = s.next ∧
      (∀ a, a ≠ rB → sB.boxObjs a = s.boxObjs a) ∧
      (∀ a, a < s.next → sB.itemArrs a = s.itemArrs a) ∧
      (∀ a, sB.typeArrs a = s.typeArrs a) := by
  refine ⟨((JSHeap.allocItems s
      (s.itemArrs (s.boxObjs r).itemsRef)).1.allocBox
      { s.boxObjs r with
          itemsRef := (JSHeap.allocItems s
            (s.itemArrs (s.boxObjs r).itemsRef)).2 }).1,
    ((JSHeap.allocItems s
      (s.itemArrs (s.boxObjs r).itemsRef)).1.allocBox
      { s.boxObjs r with
          itemsRef := (JSHeap.allocItems s
            (s.itemArrs (s.boxObjs r).itemsRef)).2 }).2,
    rfl, rfl, rfl, ?_, ?_, ?_, fun a => rfl⟩
  · simp [JSHeap.allocBox, JSHeap.allocItems]
  · intro a ha
    simp only [JSHeap.allocBox, JSHeap.allocItems] at ha ⊢
    rw [if_neg ha]
  · intro a ha
    simp only [JSHeap.allocBox, JSHeap.allocItems]
    rw [if_neg (by omega)]

theorem copySimBoxes_frame :
    ∀ (refs : List Nat) (s : JSHeap),
      heapAgreesBelow s (copySimBoxes s refs).1 s.next ∧
      s.next ≤ (copySimBoxes s refs).1.next ∧
      ∀ r ∈ (copySimBoxes s refs).2, s.next ≤ r ∧
        s.next ≤ ((copySimBoxes s refs).1.boxObjs r).itemsRef := by
  intro refs
  induction refs with
  | nil =>
    intro s
    refine ⟨heapAgreesBelow_refl s s.next, le_refl _, ?_⟩
    intro r hr
    simp [copySimBoxes] at hr
  | cons r rest ih =>
    intro s
    obtain ⟨sB, rB, heq, hn2, hrB, hiR, hobj, hita, htya⟩ :=
      copySimBoxes_cons_step s r rest
    rw [heq]
    obtain ⟨g1, g2, g3⟩ := ih sB
    have hagree0 : heapAgreesBelow s sB s.next := by
      intro a ha
      exact ⟨hita a ha, htya a, hobj a (by omega)⟩
    have hag : heapAgreesBelow s (copySimBoxes sB rest).1 s.next :=
      heapAgreesBelow_trans hagree0
        (heapAgreesBelow_weaken g1 (by omega))
    refine ⟨hag, ?_, ?_⟩
    · show s.next ≤ (copySimBoxes sB rest).1.next
      omega
    · intro r2 hr2
      rcases List.mem_cons.1 hr2 with rfl | hr2
      · refine ⟨by omega, ?_⟩
        show s.next ≤ ((copySimBoxes sB rest).1.boxObjs r2).itemsRef
        have heqobj : (copySimBoxes sB rest).1.boxObjs r2 = sB.boxObjs r2 :=
          (g1 r2 (by omega)).2.2
        rw [heqobj, hiR]
      · obtain ⟨hb1, hb2⟩ := g3 r2 hr2
        refine ⟨by omega, ?_⟩
        show s.next ≤ ((copySimBoxes sB rest).1.boxObjs r2).itemsRef
        omega

theorem tryAddLoopH_frame (item : Item) (base : Nat) :
    ∀ (q : Nat) (s : JSHeap) (simRefs : List Nat) (added : Nat),
      (∀ r ∈ simRefs, base ≤ r ∧ base ≤ (s.boxObjs r).itemsRef) →
      heapAgreesBelow s (tryAddLoopH item q s simRefs added).1 base ∧
      (tryAddLoopH item q s simRefs added).1.next = s.next := by
  intro q
  induction q with
  | zero =>
    intro s simRefs added _
    constructor
    · exact heapAgreesBelow_refl s base
    · rfl
  | succ q ih =>
    intro s simRefs added hrefs
    rcases hb : bestFitBoxIndexH s item simRefs with _ | i
    · simp only [tryAddLoopH, hb]
      constructor
      · exact heapAgreesBelow_refl s base
      · trivial
    · simp only [tryAddLoopH, hb]
      have hrmem : simRefs.getD i 0 ∈ simRefs :=
        getD_mem simRefs i 0 (bestFitBoxIndexH_some_lt hb)
      have hrb := hrefs _ hrmem
      have hrefs2 : ∀ r ∈ simRefs, base ≤ r ∧
          base ≤ ((addItemToBoxH s (simRefs.getD i 0) item).boxObjs
            r).itemsRef := by
        intro r hr
        refine ⟨(hrefs r hr).1, ?_⟩
        rw [addItemToBoxH_itemsRef]
        exact (hrefs r hr).2
      obtain ⟨g1, g2⟩ := ih (addItemToBoxH s (simRefs.getD i 0) item)
        simRefs (added + 1) hrefs2
      refine ⟨heapAgreesBelow_trans
        (addItemToBoxH_agrees s (simRefs.getD i 0) item hrb.1 hrb.2) g1, ?_⟩
      rw [g2, addItemToBoxH_next]

theorem tryAddH_frame (s : JSHeap) (item : Item) (q : Nat)
    (refs : List Nat) :
    heapAgreesBelow s (tryAddItemsToExistingBoxesH s item q refs).1 s.next ∧
    s.next ≤ (tryAddItemsToExistingBoxesH s item q refs).1.next := by
  obtain ⟨c1, c2, c3⟩ := copySimBoxes_frame refs s
  obtain ⟨l1, l2⟩ := tryAddLoopH_frame item s.next q (copySimBoxes s refs).1
    (copySimBoxes s refs).2 0 c3
  constructor
  · exact heapAgreesBelow_trans c1 l1
  · show s.next ≤ (tryAddLoopH item q (copySimBoxes s refs).1
      (copySimBoxes s refs).2 0).1.next
    rw [l2]
    exact c2

/-- C9: neither the Packing Engine nor the Consolidation Simulator mutates
its arguments.  In the store-passing rendering of the same source lines,
after either call every heap cell allocated before the call is unchanged:
in particular the caller's item list, the catalog, and every container of
the original PackingResult (its box object, hence its filled-volume and
total-weight, and its items array) read back exactly as before. -/
theorem claim_c9_no_mutation (s : JSHeap) (aItems aTypes : Nat) (item : Item)
    (q : Nat) (refs : List Nat)
    (hAI : aItems < s.next) (hAT : aTypes < s.next)
    (hrefs : ∀ r ∈ refs, r < s.next ∧ (s.boxObjs r).itemsRef < s.next) :
    ((packOptimalH s aItems aTypes).1.itemArrs aItems = s.itemArrs aItems ∧
      (packOptimalH s aItems aTypes).1.typeArrs aTypes = s.typeArrs aTypes ∧
      heapAgreesBelow s (packOptimalH s aItems aTypes).1 s.next) ∧
    ((∀ r ∈ refs,
        (tryAddItemsToExistingBoxesH s item q refs).1.boxObjs r =
          s.boxObjs r ∧
        (tryAddItemsToExistingBoxesH s item q refs).1.itemArrs
          ((s.boxObjs r).itemsRef) =
          s.itemArrs ((s.boxObjs r).itemsRef)) ∧
      heapAgreesBelow s (tryAddItemsToExistingBoxesH s item q refs).1
        s.next) := by
  obtain ⟨p1, _⟩ := packOptimalH_frame s aItems aTypes
  obtain ⟨t1, _⟩ := tryAddH_frame s item q refs
  refine ⟨⟨(p1 aItems hAI).1, (p1 aTypes hAT).2.1, p1⟩, ⟨?_, t1⟩⟩
  intro r hr
  obtain ⟨hr1, hr2⟩ := hrefs r hr
  exact ⟨(t1 r hr1).2.2, (t1 _ hr2).1⟩

/-- Witness for C9 on a concrete three-cell heap: a book list, the catalog
and one packed box. -/
theorem claim_c9_witness :
    ((0 : Nat) < exampleHeap.next ∧ (1 : Nat) < exampleHeap.next ∧
      (∀ r ∈ [2], r < exampleHeap.next ∧
        (exampleHeap.boxObjs r).itemsRef < exampleHeap.next)) ∧
    (((packOptimalH exampleHeap 0 1).1.itemArrs 0 =
        exampleHeap.itemArrs 0 ∧
      (packOptimalH exampleHeap 0 1).1.typeArrs 1 =
        exampleHeap.typeArrs 1 ∧
      heapAgreesBelow exampleHeap (packOptimalH exampleHeap 0 1).1
        exampleHeap.next) ∧
    ((∀ r ∈ [2],
        (tryAddItemsToExistingBoxesH exampleHeap mug 2 [2]).1.boxObjs r =
          exampleHeap.boxObjs r ∧
        (tryAddItemsToExistingBoxesH exampleHeap mug 2 [2]).1.itemArrs
          ((exampleHeap.boxObjs r).itemsRef) =
          exampleHeap.itemArrs ((exampleHeap.boxObjs r).itemsRef)) ∧
      heapAgreesBelow exampleHeap
        (tryAddItemsToExistingBoxesH exampleHeap mug 2 [2]).1
        exampleHeap.next)) := by
  have h1 : (0 : Nat) < exampleHeap.next := by norm_num [exampleHeap]
  have h2 : (1 : Nat) < exampleHeap.next := by norm_num [exampleHeap]
  have h3 : ∀ r ∈ [2], r < exampleHeap.next ∧
      (exampleHeap.boxObjs r).itemsRef < exampleHeap.next := by
    intro r hr
    fin_cases hr
    norm_num [exampleHeap]
  exact ⟨⟨h1, h2, h3⟩, claim_c9_no_mutation exampleHeap 0 1 mug 2 [2] h1 h2 h3⟩
